import Mathlib

/-!
Verification development for the JSX-aware static-analysis engine specified by
the fixture corpus of this repository.  The repository ships only `.jsx`
fixture files describing the expected behaviour of the engine, so the engine
itself (lexer, JSX/JS partitioner, tolerant parser, extraction projector,
pattern analyzer, diagnostics aggregator) is modelled here from the design
specification, at the granularity of a token stream.
-/

namespace JsxSpec

/-- Modelled from the spec: §3 SourceSpan, a half-open range.  Positions are
token indices in the input token stream (an order-isomorphic abstraction of
byte offsets). -/
structure Span where
  start : Nat
  stop : Nat
deriving DecidableEq, Repr

/-- Modelled from the spec: §3 Diagnostic severity (error, warning, info). -/
inductive Severity : Type where
  | error
  | warning
  | info
deriving DecidableEq, Repr

/-- Modelled from the spec: §7 diagnostic taxonomy — SyntaxRecovery (local,
non-fatal), StructuralLimit (fatal for the current file), PatternMatch (a
finding, carrying a rule identifier). -/
inductive DiagKind : Type where
  | syntaxRecovery
  | structuralLimit
  | patternMatch (rule : String)
deriving DecidableEq, Repr

/-- Modelled from the spec: §3 Diagnostic. -/
structure Diag where
  severity : Severity
  message : String
  span : Span
  kind : DiagKind
deriving DecidableEq, Repr

/-- Modelled from the spec: §6 analysis configuration — depth/size ceiling,
dangerous-sink attribute names and hook-name conventions. -/
structure Config where
  maxDepth : Nat
  dangerousSinkNames : List String
  hookNamePrefixes : List String
deriving DecidableEq, Repr

mutual

/-- Modelled from the spec: §3 ScriptNode / MarkupNode / EmbeddedExpression
data model.  Expressions, statements and markup are mutually recursive; the
`placeholder` constructor is the OpaqueMarkup placeholder of §4.4 (it records
only span and tag name plus the spliced embedded-expression list), and `comma`
is a semantically neutral expression-sequence used by the markup-neutralisation
transformation of §8. -/
inductive Expr : Type where
  | lit (s : String)
  | var (name : String)
  | member (obj : Expr) (field : String)
  | call (callee : Expr) (args : List Expr) (span : Span)
  | arrow (params : List String) (body : List Stmt)
  | awaitE (e : Expr) (span : Span)
  | markup (m : Markup)
  | placeholder (tag : String) (embedded : List Expr) (span : Span)
  | comma (es : List Expr) (span : Span)
  | malformedE (span : Span)

inductive Stmt : Type where
  | exprStmt (e : Expr)
  | varDecl (name : String) (init : Expr)
  | ret (arg : Option Expr)
  | ifS (cond : Expr) (thenB : List Stmt) (elseB : List Stmt)
  | tryS (body : List Stmt) (catchB : List Stmt) (finallyB : List Stmt)
  | loop (cond : Expr) (body : List Stmt)
  | funDecl (name : String) (params : List String) (body : List Stmt)
  | malformed (span : Span)

inductive Markup : Type where
  | node (tag : String) (attrs : List MAttr) (children : List MChild) (selfClosing : Bool) (span : Span)

inductive MAttr : Type where
  | mk (name : String) (value : MAttrVal) (span : Span)

inductive MAttrVal : Type where
  | litStr (s : String)
  | embedded (e : Expr)

inductive MChild : Type where
  | sub (m : Markup)
  | textRun (s : String)
  | embedded (e : Expr)

end

def Markup.selfClosing : Markup → Bool
  | .node _ _ _ sc _ => sc

def Markup.tagName : Markup → String
  | .node tag _ _ _ _ => tag

def MAttr.name : MAttr → String
  | .mk n _ _ => n

def MAttr.value : MAttr → MAttrVal
  | .mk _ v _ => v

def MAttr.span : MAttr → Span
  | .mk _ _ sp => sp

/-- Constructor name of a statement, used to state that projection never
changes the statement-level construct kind. -/
def stmtCtorName : Stmt → String
  | .exprStmt _ => "exprStmt"
  | .varDecl _ _ => "varDecl"
  | .ret _ => "return"
  | .ifS _ _ _ => "if"
  | .tryS _ _ _ => "try"
  | .loop _ _ => "loop"
  | .funDecl _ _ _ => "funDecl"
  | .malformed _ => "malformed"

mutual

/-- Modelled from the spec: §4.4 Extraction Projector.  Walks statements in
order; a MarkupNode used as an expression value is replaced by an OpaqueMarkup
`placeholder` recording span and tag name, and every EmbeddedExpression found
transitively within the markup (attribute values first, then children, in
document order) is spliced into the placeholder's auxiliary ordered list. -/
def projectE : Expr → Expr
  | .lit s => .lit s
  | .var n => .var n
  | .member o f => .member (projectE o) f
  | .call c args sp => .call (projectE c) (projectEL args) sp
  | .arrow ps b => .arrow ps (projectSL b)
  | .awaitE e sp => .awaitE (projectE e) sp
  | .markup (.node tag attrs ch _ sp) => .placeholder tag (collectAL attrs ++ collectCL ch) sp
  | .placeholder t es sp => .placeholder t (projectEL es) sp
  | .comma es sp => .comma (projectEL es) sp
  | .malformedE sp => .malformedE sp

def projectEL : List Expr → List Expr
  | [] => []
  | e :: es => projectE e :: projectEL es

def projectS : Stmt → Stmt
  | .exprStmt e => .exprStmt (projectE e)
  | .varDecl n e => .varDecl n (projectE e)
  | .ret none => .ret none
  | .ret (some e) => .ret (some (projectE e))
  | .ifS c t e => .ifS (projectE c) (projectSL t) (projectSL e)
  | .tryS b c f => .tryS (projectSL b) (projectSL c) (projectSL f)
  | .loop c b => .loop (projectE c) (projectSL b)
  | .funDecl n ps b => .funDecl n ps (projectSL b)
  | .malformed sp => .malformed sp

def projectSL : List Stmt → List Stmt
  | [] => []
  | s :: ss => projectS s :: projectSL ss

def collectAL : List MAttr → List Expr
  | [] => []
  | .mk _ (.embedded e) _ :: rest => projectE e :: collectAL rest
  | .mk _ (.litStr _) _ :: rest => collectAL rest

def collectCL : List MChild → List Expr
  | [] => []
  | .sub (.node _ attrs ch _ _) :: rest => collectAL attrs ++ collectCL ch ++ collectCL rest
  | .textRun _ :: rest => collectCL rest
  | .embedded e :: rest => projectE e :: collectCL rest

end

mutual

/-- Modelled from the spec: §8 markup-invisibility property — this is the
specification-side transformation "every JSX tag replaced by semantically
neutral whitespace": markup disappears entirely (tags and text runs carry no
JS semantics), while the embedded expressions written inside the markup remain
as ordinary JS, wrapped in a semantically neutral comma sequence at the
position of the markup expression. -/
def neutralizeE : Expr → Expr
  | .lit s => .lit s
  | .var n => .var n
  | .member o f => .member (neutralizeE o) f
  | .call c args sp => .call (neutralizeE c) (neutralizeEL args) sp
  | .arrow ps b => .arrow ps (neutralizeSL b)
  | .awaitE e sp => .awaitE (neutralizeE e) sp
  | .markup (.node _ attrs ch _ sp) => .comma (ncollectAL attrs ++ ncollectCL ch) sp
  | .placeholder t es sp => .placeholder t (neutralizeEL es) sp
  | .comma es sp => .comma (neutralizeEL es) sp
  | .malformedE sp => .malformedE sp

def neutralizeEL : List Expr → List Expr
  | [] => []
  | e :: es => neutralizeE e :: neutralizeEL es

def neutralizeS : Stmt → Stmt
  | .exprStmt e => .exprStmt (neutralizeE e)
  | .varDecl n e => .varDecl n (neutralizeE e)
  | .ret none => .ret none
  | .ret (some e) => .ret (some (neutralizeE e))
  | .ifS c t e => .ifS (neutralizeE c) (neutralizeSL t) (neutralizeSL e)
  | .tryS b c f => .tryS (neutralizeSL b) (neutralizeSL c) (neutralizeSL f)
  | .loop c b => .loop (neutralizeE c) (neutralizeSL b)
  | .funDecl n ps b => .funDecl n ps (neutralizeSL b)
  | .malformed sp => .malformed sp

def neutralizeSL : List Stmt → List Stmt
  | [] => []
  | s :: ss => neutralizeS s :: neutralizeSL ss

def ncollectAL : List MAttr → List Expr
  | [] => []
  | .mk _ (.embedded e) _ :: rest => neutralizeE e :: ncollectAL rest
  | .mk _ (.litStr _) _ :: rest => ncollectAL rest

def ncollectCL : List MChild → List Expr
  | [] => []
  | .sub (.node _ attrs ch _ _) :: rest => ncollectAL attrs ++ ncollectCL ch ++ ncollectCL rest
  | .textRun _ :: rest => ncollectCL rest
  | .embedded e :: rest => neutralizeE e :: ncollectCL rest

end

/-- Tags naming the statement-level control constructs whose preservation the
projection invariant of §4.4 guarantees. -/
inductive CtorTag : Type where
  | retT
  | ifT
  | tryT
  | loopT
  | funT
deriving DecidableEq, Repr

def tagBit (b : Bool) : Nat := if b then 1 else 0

mutual

/-- Counts occurrences of a given control construct anywhere in the tree
(including inside arrow-function bodies and embedded expressions within
markup). -/
def cntE (t : CtorTag) : Expr → Nat
  | .lit _ => 0
  | .var _ => 0
  | .member o _ => cntE t o
  | .call c args _ => cntE t c + cntEL t args
  | .arrow _ b => tagBit (t = .funT) + cntSL t b
  | .awaitE e _ => cntE t e
  | .markup (.node _ attrs ch _ _) => cntAL t attrs + cntCL t ch
  | .placeholder _ es _ => cntEL t es
  | .comma es _ => cntEL t es
  | .malformedE _ => 0

def cntEL (t : CtorTag) : List Expr → Nat
  | [] => 0
  | e :: es => cntE t e + cntEL t es

def cntS (t : CtorTag) : Stmt → Nat
  | .exprStmt e => cntE t e
  | .varDecl _ e => cntE t e
  | .ret none => tagBit (t = .retT)
  | .ret (some e) => tagBit (t = .retT) + cntE t e
  | .ifS c th el => tagBit (t = .ifT) + cntE t c + cntSL t th + cntSL t el
  | .tryS b c f => tagBit (t = .tryT) + cntSL t b + cntSL t c + cntSL t f
  | .loop c b => tagBit (t = .loopT) + cntE t c + cntSL t b
  | .funDecl _ _ b => tagBit (t = .funT) + cntSL t b
  | .malformed _ => 0

def cntSL (t : CtorTag) : List Stmt → Nat
  | [] => 0
  | s :: ss => cntS t s + cntSL t ss

def cntAL (t : CtorTag) : List MAttr → Nat
  | [] => 0
  | .mk _ (.embedded e) _ :: rest => cntE t e + cntAL t rest
  | .mk _ (.litStr _) _ :: rest => cntAL t rest

def cntCL (t : CtorTag) : List MChild → Nat
  | [] => 0
  | .sub (.node _ attrs ch _ _) :: rest => cntAL t attrs + cntCL t ch + cntCL t rest
  | .textRun _ :: rest => cntCL t rest
  | .embedded e :: rest => cntE t e + cntCL t rest

end

/-- Character-list prefix test (kept elementary so that it evaluates inside
the proof checker). -/
def strPre : List Char → List Char → Bool
  | [], _ => true
  | _ :: _, [] => false
  | a :: as, b :: bs => decide (a = b) && strPre as bs

/-- Modelled from the spec: §4.5(b) — a call is hook-style by name convention
when its name begins with a configured hook-name convention string. -/
def isHookName (cfg : Config) (s : String) : Bool :=
  cfg.hookNamePrefixes.any (fun p => strPre p.data s.data)

/-- The name under which a callee participates in the hook-name convention:
a bare identifier (`useState`) or the final member of a member expression
(`React.useState`). -/
def calleeHookName : Expr → Option String
  | .var n => some n
  | .member _ f => some f
  | _ => none

def isHookCallee (cfg : Config) (e : Expr) : Bool :=
  match calleeHookName e with
  | some n => isHookName cfg n
  | none => false

mutual

/-- Modelled from the spec: §4.5(b) hook-usage rule traversal.  The flag is
true when the position is inside a conditional or loop of the enclosing
function body; a hook-style call found with the flag set is reported at the
call's span.  Arrow functions and function declarations reset the flag (a new
function top level); embedded expressions inside markup are inspected as
ordinary JS at the position of the markup expression. -/
def hookE (cfg : Config) (c : Bool) : Expr → List Span
  | .lit _ => []
  | .var _ => []
  | .member o _ => hookE cfg c o
  | .call callee args sp =>
      (if c && isHookCallee cfg callee then [sp] else []) ++ hookE cfg c callee ++ hookEL cfg c args
  | .arrow _ b => hookSL cfg false b
  | .awaitE e _ => hookE cfg c e
  | .markup (.node _ attrs ch _ _) => hookAL cfg c attrs ++ hookCL cfg c ch
  | .placeholder _ es _ => hookEL cfg c es
  | .comma es _ => hookEL cfg c es
  | .malformedE _ => []

def hookEL (cfg : Config) (c : Bool) : List Expr → List Span
  | [] => []
  | e :: es => hookE cfg c e ++ hookEL cfg c es

def hookS (cfg : Config) (c : Bool) : Stmt → List Span
  | .exprStmt e => hookE cfg c e
  | .varDecl _ e => hookE cfg c e
  | .ret none => []
  | .ret (some e) => hookE cfg c e
  | .ifS cond t e => hookE cfg true cond ++ hookSL cfg true t ++ hookSL cfg true e
  | .tryS b cb fb => hookSL cfg c b ++ hookSL cfg c cb ++ hookSL cfg c fb
  | .loop cond b => hookE cfg true cond ++ hookSL cfg true b
  | .funDecl _ _ b => hookSL cfg false b
  | .malformed _ => []

def hookSL (cfg : Config) (c : Bool) : List Stmt → List Span
  | [] => []
  | s :: ss => hookS cfg c s ++ hookSL cfg c ss

def hookAL (cfg : Config) (c : Bool) : List MAttr → List Span
  | [] => []
  | .mk _ (.embedded e) _ :: rest => hookE cfg c e ++ hookAL cfg c rest
  | .mk _ (.litStr _) _ :: rest => hookAL cfg c rest

def hookCL (cfg : Config) (c : Bool) : List MChild → List Span
  | [] => []
  | .sub (.node _ attrs ch _ _) :: rest => hookAL cfg c attrs ++ hookCL cfg c ch ++ hookCL cfg c rest
  | .textRun _ :: rest => hookCL cfg c rest
  | .embedded e :: rest => hookE cfg c e ++ hookCL cfg c rest

end

mutual

/-- True when the tree contains no hook-style call anywhere (at any nesting,
including inside arrow bodies and markup-embedded expressions). -/
def hookFreeE (cfg : Config) : Expr → Bool
  | .lit _ => true
  | .var _ => true
  | .member o _ => hookFreeE cfg o
  | .call callee args _ => !isHookCallee cfg callee && hookFreeE cfg callee && hookFreeEL cfg args
  | .arrow _ b => hookFreeSL cfg b
  | .awaitE e _ => hookFreeE cfg e
  | .markup (.node _ attrs ch _ _) => hookFreeAL cfg attrs && hookFreeCL cfg ch
  | .placeholder _ es _ => hookFreeEL cfg es
  | .comma es _ => hookFreeEL cfg es
  | .malformedE _ => true

def hookFreeEL (cfg : Config) : List Expr → Bool
  | [] => true
  | e :: es => hookFreeE cfg e && hookFreeEL cfg es

def hookFreeS (cfg : Config) : Stmt → Bool
  | .exprStmt e => hookFreeE cfg e
  | .varDecl _ e => hookFreeE cfg e
  | .ret none => true
  | .ret (some e) => hookFreeE cfg e
  | .ifS cond t e => hookFreeE cfg cond && hookFreeSL cfg t && hookFreeSL cfg e
  | .tryS b cb fb => hookFreeSL cfg b && hookFreeSL cfg cb && hookFreeSL cfg fb
  | .loop cond b => hookFreeE cfg cond && hookFreeSL cfg b
  | .funDecl _ _ b => hookFreeSL cfg b
  | .malformed _ => true

def hookFreeSL (cfg : Config) : List Stmt → Bool
  | [] => true
  | s :: ss => hookFreeS cfg s && hookFreeSL cfg ss

def hookFreeAL (cfg : Config) : List MAttr → Bool
  | [] => true
  | .mk _ (.embedded e) _ :: rest => hookFreeE cfg e && hookFreeAL cfg rest
  | .mk _ (.litStr _) _ :: rest => hookFreeAL cfg rest

def hookFreeCL (cfg : Config) : List MChild → Bool
  | [] => true
  | .sub (.node _ attrs ch _ _) :: rest => hookFreeAL cfg attrs && hookFreeCL cfg ch && hookFreeCL cfg rest
  | .textRun _ :: rest => hookFreeCL cfg rest
  | .embedded e :: rest => hookFreeE cfg e && hookFreeCL cfg rest

end

/-- A callee shape the hook-name convention recognises directly: a bare
identifier or a member access off a bare identifier. -/
def simpleCallee : Expr → Bool
  | .var _ => true
  | .member (.var _) _ => true
  | _ => false

/-- An expression acceptable as an unconditional top-level statement payload:
either entirely hook-free, or a single hook-style call (bare or
member-qualified) whose arguments are hook-free. -/
def topCallOk (cfg : Config) : Expr → Bool
  | .call callee args sp =>
      (isHookCallee cfg callee && simpleCallee callee && hookFreeEL cfg args)
        || hookFreeE cfg (.call callee args sp)
  | e => hookFreeE cfg e

/-- A statement acceptable at a function body's top level for the purpose of
the hook-usage rule: hook-style calls may appear only as the direct payload of
the statement, and any other statement must be hook-free. -/
def hookTopOkS (cfg : Config) : Stmt → Bool
  | .exprStmt e => topCallOk cfg e
  | .varDecl _ e => topCallOk cfg e
  | .ret (some e) => topCallOk cfg e
  | .ret none => true
  | s => hookFreeS cfg s

def isDangerous (cfg : Config) (nm : String) : Bool :=
  cfg.dangerousSinkNames.contains nm

/-- True when an attribute value is a compile-time string literal. -/
def isLitVal : MAttrVal → Bool
  | .litStr _ => true
  | .embedded (.lit _) => true
  | .embedded _ => false

/-- A dangerous-sink attribute occurrence: the enclosing tag, the attribute
name and span, and whether the bound value is a compile-time literal. -/
structure SinkHit where
  tag : String
  name : String
  span : Span
  litVal : Bool
deriving DecidableEq, Repr

mutual

/-- Modelled from the spec: §4.2/§4.5(a) — every attribute whose name is a
configured dangerous-sink name is tagged for the Pattern Analyzer regardless
of the content of the bound expression; the collection walks the whole markup
forest, including markup nested inside embedded expressions. -/
def sinkE (cfg : Config) : Expr → List SinkHit
  | .lit _ => []
  | .var _ => []
  | .member o _ => sinkE cfg o
  | .call c args _ => sinkE cfg c ++ sinkEL cfg args
  | .arrow _ b => sinkSL cfg b
  | .awaitE e _ => sinkE cfg e
  | .markup (.node tag attrs ch _ _) => sinkAL cfg tag attrs ++ sinkCL cfg ch
  | .placeholder _ es _ => sinkEL cfg es
  | .comma es _ => sinkEL cfg es
  | .malformedE _ => []

def sinkEL (cfg : Config) : List Expr → List SinkHit
  | [] => []
  | e :: es => sinkE cfg e ++ sinkEL cfg es

def sinkS (cfg : Config) : Stmt → List SinkHit
  | .exprStmt e => sinkE cfg e
  | .varDecl _ e => sinkE cfg e
  | .ret none => []
  | .ret (some e) => sinkE cfg e
  | .ifS cond t e => sinkE cfg cond ++ sinkSL cfg t ++ sinkSL cfg e
  | .tryS b cb fb => sinkSL cfg b ++ sinkSL cfg cb ++ sinkSL cfg fb
  | .loop cond b => sinkE cfg cond ++ sinkSL cfg b
  | .funDecl _ _ b => sinkSL cfg b
  | .malformed _ => []

def sinkSL (cfg : Config) : List Stmt → List SinkHit
  | [] => []
  | s :: ss => sinkS cfg s ++ sinkSL cfg ss

def sinkAV (cfg : Config) : MAttrVal → List SinkHit
  | .litStr _ => []
  | .embedded e => sinkE cfg e

def sinkAL (cfg : Config) (tag : String) : List MAttr → List SinkHit
  | [] => []
  | .mk nm v sp :: rest =>
      (if isDangerous cfg nm then [⟨tag, nm, sp, isLitVal v⟩] else [])
        ++ sinkAV cfg v ++ sinkAL cfg tag rest

def sinkCL (cfg : Config) : List MChild → List SinkHit
  | [] => []
  | .sub (.node tag attrs ch _ _) :: rest => sinkAL cfg tag attrs ++ sinkCL cfg ch ++ sinkCL cfg rest
  | .textRun _ :: rest => sinkCL cfg rest
  | .embedded e :: rest => sinkE cfg e ++ sinkCL cfg rest

end

/-- Modelled from the spec: §4.5(a) — the diagnostic the dangerous-sink rule
emits for a tagged attribute: severity warning, message identifying the tag
and attribute, at the attribute's span. -/
def mkSinkDiag (h : SinkHit) : Diag :=
  ⟨.warning, "dangerous sink attribute " ++ h.name ++ " on tag " ++ h.tag,
    h.span, .patternMatch "dangerous-sink"⟩

def sinkRule (cfg : Config) (ss : List Stmt) : List Diag :=
  (sinkSL cfg ss).map mkSinkDiag

/-- Modelled from the spec: §4.5(b) — the hook-usage rule over the pure-JS
view: one warning PatternMatch diagnostic per hook-style call that is not a
direct child of a function body's top level. -/
def mkHookDiag (sp : Span) : Diag :=
  ⟨.warning, "hook-style call not at function top level", sp, .patternMatch "hook-usage"⟩

def hookRule (cfg : Config) (view : List Stmt) : List Diag :=
  (hookSL cfg false view).map mkHookDiag

/-- The diagnostics the Pattern Analyzer derives from the pure-JS view alone
(as opposed to rules that read markup-attribute metadata). -/
def viewDiags (cfg : Config) (view : List Stmt) : List Diag :=
  hookRule cfg view

/-- Modelled from the spec: §4.5 — the pattern diagnostics for a parsed
program: the dangerous-sink rule reads the markup forest, the hook-usage rule
reads the projected pure-JS view. -/
def patternDiags (cfg : Config) (ss : List Stmt) : List Diag :=
  sinkRule cfg ss ++ hookRule cfg (projectSL ss)

def sevRank : Severity → Nat
  | .error => 2
  | .warning => 1
  | .info => 0

/-- The deduplication key of §4.6: the (span, rule, message) tuple, with the
rule identifier carried by the diagnostic kind. -/
def diagKey (d : Diag) : Span × DiagKind × String :=
  (d.span, d.kind, d.message)

/-- Modelled from the spec: §4.6 ordering — start offset ascending, then
severity descending. -/
def diagLe (a b : Diag) : Bool :=
  decide (a.span.start < b.span.start)
    || (decide (a.span.start = b.span.start) && decide (sevRank b.severity ≤ sevRank a.severity))

def insertD (d : Diag) : List Diag → List Diag
  | [] => [d]
  | e :: es => if diagLe d e then d :: e :: es else e :: insertD d es

def sortDiags : List Diag → List Diag
  | [] => []
  | d :: ds => insertD d (sortDiags ds)

/-- Modelled from the spec: §4.6 — drop later diagnostics whose
(span, rule, message) key already occurred; `seen` accumulates the keys kept
so far. -/
def dedupSeen (seen : List (Span × DiagKind × String)) : List Diag → List Diag
  | [] => []
  | d :: ds =>
      if diagKey d ∈ seen then dedupSeen seen ds
      else d :: dedupSeen (diagKey d :: seen) ds

def dedupDiags (l : List Diag) : List Diag := dedupSeen [] l

/-- Modelled from the spec: §4.6 Diagnostics Aggregator — deduplicate
identical (span, rule, message) tuples, then sort by (start offset, severity
descending). -/
def aggregate (ds : List Diag) : List Diag :=
  sortDiags (dedupDiags ds)

/-- Modelled from the spec: §6 AnalysisResult — the ordered diagnostics and
the pure-JS view. -/
structure AnalysisResult where
  diagnostics : List Diag
  pureJsView : List Stmt

/-- Modelled from the spec: analysis of an already-partitioned program tree —
the Pattern Analyzer runs over the projected pure-JS view and markup forest
and the Diagnostics Aggregator orders the findings. -/
def analyzeAst (cfg : Config) (ss : List Stmt) : AnalysisResult :=
  ⟨aggregate (patternDiags cfg ss), projectSL ss⟩

/-- Modelled from the spec: §4.1 — the lexical units produced by the lexer.
Tag structure is flattened into the stream (open marker, attribute names,
values, end-of-open-tag marker, close marker), as a lexer emits it. -/
inductive Tok : Type where
  | ident (s : String)
  | kw (s : String)
  | strTok (s : String)
  | numTok (n : Nat)
  | punct (s : String)
  | lbrace
  | rbrace
  | commentTok (s : String)
  | tagOpen (tag : String)
  | attrName (name : String)
  | tagEnd (selfClosing : Bool)
  | tagClose (tag : String)
  | jsxText (s : String)
deriving DecidableEq, Repr

def Tok.isComment : Tok → Bool
  | .commentTok _ => true
  | _ => false

/-- A diagnostic produced by the lexer, partitioner or tolerant parser; per
§4.1/§4.3 these components only ever emit SyntaxRecovery diagnostics. -/
structure RecoveryDiag where
  message : String
  span : Span
deriving DecidableEq, Repr

def RecoveryDiag.toDiag (r : RecoveryDiag) : Diag :=
  ⟨.error, r.message, r.span, .syntaxRecovery⟩

/-- Result of a parsing step: the value, the recovery diagnostics emitted so
far, the unconsumed remainder of the stream, and whether the configured
depth/size ceiling was hit before the construct could be completed. -/
structure PRes (α : Type) where
  val : α
  diags : List RecoveryDiag
  rest : List Tok
  limit : Bool

/-- Current position: the number of tokens already consumed, recovered from
the total input length and the remaining stream. -/
def posOf (n0 : Nat) (toks : List Tok) : Nat := n0 - toks.length

def spanAt (p : Nat) : Span := ⟨p, p + 1⟩

/-- True when a token can begin an expression. -/
def startsExpr : Tok → Bool
  | .ident _ => true
  | .strTok _ => true
  | .numTok _ => true
  | .punct "(" => true
  | .kw "true" => true
  | .kw "false" => true
  | .kw "null" => true
  | .kw "await" => true
  | .tagOpen _ => true
  | _ => false

def eatSemi : List Tok → List Tok
  | .punct ";" :: rest => rest
  | toks => toks

/-- Modelled from the spec: §4.3 error policy — skip tokens until a statement
boundary (past a semicolon, or up to a closing brace, or end of input). -/
def skipToBoundary : List Tok → List Tok
  | [] => []
  | .punct ";" :: rest => rest
  | .rbrace :: rest => .rbrace :: rest
  | _ :: rest => skipToBoundary rest

/-- Modelled from the spec: §4.2 — collect the token range of an embedded
expression up to the matching closing brace, tracking brace depth.  Returns
the enclosed range, the remainder after the closing brace, and whether the
closing brace was found. -/
def takeBalanced : Nat → List Tok → List Tok × List Tok × Bool
  | _, [] => ([], [], false)
  | 0, .rbrace :: rest => ([], rest, true)
  | d + 1, .rbrace :: rest =>
      let r := takeBalanced d rest
      (.rbrace :: r.1, r.2.1, r.2.2)
  | d, .lbrace :: rest =>
      let r := takeBalanced (d + 1) rest
      (.lbrace :: r.1, r.2.1, r.2.2)
  | d, t :: rest =>
      let r := takeBalanced d rest
      (t :: r.1, r.2.1, r.2.2)

def expectRParen (n0 : Nat) (toks : List Tok) : List Tok × List RecoveryDiag :=
  match toks with
  | .punct ")" :: rest => (rest, [])
  | _ => (toks, [⟨"expected closing parenthesis", spanAt (posOf n0 toks)⟩])

def dropCatchParam : List Tok → List Tok
  | .punct "(" :: .ident _ :: .punct ")" :: rest => rest
  | rest => rest

def parseParams (n0 : Nat) : List Tok → List String × List Tok × List RecoveryDiag
  | [] => ([], [], [⟨"unterminated parameter list", spanAt n0⟩])
  | .punct ")" :: rest => ([], rest, [])
  | .ident x :: .punct "," :: rest =>
      let r := parseParams n0 rest
      (x :: r.1, r.2.1, r.2.2)
  | .ident x :: rest =>
      let r := parseParams n0 rest
      (x :: r.1, r.2.1, r.2.2)
  | t :: rest =>
      let r := parseParams n0 rest
      (r.1, r.2.1, ⟨"unexpected token in parameter list", spanAt (posOf n0 (t :: rest))⟩ :: r.2.2)

/-- Parameter names recoverable from a parenthesised expression reused as an
arrow-function head. -/
def paramsOf : Expr → List String
  | .var n => [n]
  | _ => []

mutual

/-- Modelled from the spec: §4.2/§4.3 — the JSX/JS partitioner and tolerant
parser, fused into one recursive descent over the token stream.  Recursion is
bounded by the configured depth/size ceiling (the fuel); running out of fuel
with input remaining sets the `limit` flag (§5, §7 StructuralLimit), and every
local syntax error is recovered per §4.3 by emitting a SyntaxRecovery
diagnostic and re-synchronising, never aborting. -/
def parseStmts (cfg : Config) (n0 fuel : Nat) (inBlock : Bool) (toks : List Tok) : PRes (List Stmt) :=
  match fuel with
  | 0 => ⟨[], [], toks, !toks.isEmpty⟩
  | fuel + 1 =>
    match toks with
    | [] =>
        if inBlock then ⟨[], [⟨"unterminated block", spanAt (posOf n0 ([] : List Tok))⟩], [], false⟩
        else ⟨[], [], [], false⟩
    | .rbrace :: rest =>
        if inBlock then ⟨[], [], rest, false⟩
        else
          let r := parseStmts cfg n0 fuel inBlock rest
          ⟨r.val, ⟨"unexpected closing brace", spanAt (posOf n0 (Tok.rbrace :: rest))⟩ :: r.diags, r.rest, r.limit⟩
    | .commentTok _ :: rest => parseStmts cfg n0 fuel inBlock rest
    | .punct ";" :: rest => parseStmts cfg n0 fuel inBlock rest
    | t :: rest =>
        let s := parseStmt cfg n0 fuel (t :: rest)
        let r := parseStmts cfg n0 fuel inBlock s.rest
        ⟨s.val :: r.val, s.diags ++ r.diags, r.rest, s.limit || r.limit⟩
  termination_by structural fuel

def parseStmt (cfg : Config) (n0 fuel : Nat) (toks : List Tok) : PRes Stmt :=
  match fuel with
  | 0 => ⟨.malformed (spanAt (posOf n0 toks)), [], toks, !toks.isEmpty⟩
  | fuel + 1 =>
    match toks with
    | .kw "return" :: rest =>
        (match rest with
         | .punct ";" :: rest2 => ⟨.ret none, [], rest2, false⟩
         | .rbrace :: _ => ⟨.ret none, [], rest, false⟩
         | [] => ⟨.ret none, [], [], false⟩
         | _ =>
             let e := parseExpr cfg n0 fuel rest
             ⟨.ret (some e.val), e.diags, eatSemi e.rest, e.limit⟩)
    | .kw "const" :: rest => parseDeclTail cfg n0 fuel (posOf n0 toks) rest
    | .kw "let" :: rest => parseDeclTail cfg n0 fuel (posOf n0 toks) rest
    | .kw "var" :: rest => parseDeclTail cfg n0 fuel (posOf n0 toks) rest
    | .kw "if" :: .punct "(" :: rest =>
        let c := parseExpr cfg n0 fuel rest
        let p2 := expectRParen n0 c.rest
        let tb := parseBlock cfg n0 fuel p2.1
        (match tb.rest with
         | .kw "else" :: rest3 =>
             let eb := parseBlock cfg n0 fuel rest3
             ⟨.ifS c.val tb.val eb.val, c.diags ++ p2.2 ++ tb.diags ++ eb.diags, eb.rest,
               c.limit || tb.limit || eb.limit⟩
         | _ => ⟨.ifS c.val tb.val [], c.diags ++ p2.2 ++ tb.diags, tb.rest, c.limit || tb.limit⟩)
    | .kw "if" :: rest =>
        let sk := skipToBoundary rest
        ⟨.malformed ⟨posOf n0 toks, posOf n0 sk⟩,
          [⟨"malformed if statement", spanAt (posOf n0 toks)⟩], sk, false⟩
    | .kw "try" :: rest =>
        let b := parseBlock cfg n0 fuel rest
        (match b.rest with
         | .kw "catch" :: rest2 =>
             let cb := parseBlock cfg n0 fuel (dropCatchParam rest2)
             (match cb.rest with
              | .kw "finally" :: rest4 =>
                  let fb := parseBlock cfg n0 fuel rest4
                  ⟨.tryS b.val cb.val fb.val, b.diags ++ cb.diags ++ fb.diags, fb.rest,
                    b.limit || cb.limit || fb.limit⟩
              | _ => ⟨.tryS b.val cb.val [], b.diags ++ cb.diags, cb.rest, b.limit || cb.limit⟩)
         | .kw "finally" :: rest2 =>
             let fb := parseBlock cfg n0 fuel rest2
             ⟨.tryS b.val [] fb.val, b.diags ++ fb.diags, fb.rest, b.limit || fb.limit⟩
         | _ =>
             ⟨.tryS b.val [] [],
               b.diags ++ [⟨"try without catch or finally", spanAt (posOf n0 b.rest)⟩],
               b.rest, b.limit⟩)
    | .kw "while" :: .punct "(" :: rest =>
        let c := parseExpr cfg n0 fuel rest
        let p2 := expectRParen n0 c.rest
        let b := parseBlock cfg n0 fuel p2.1
        ⟨.loop c.val b.val, c.diags ++ p2.2 ++ b.diags, b.rest, c.limit || b.limit⟩
    | .kw "while" :: rest =>
        let sk := skipToBoundary rest
        ⟨.malformed ⟨posOf n0 toks, posOf n0 sk⟩,
          [⟨"malformed while statement", spanAt (posOf n0 toks)⟩], sk, false⟩
    | .kw "function" :: .ident f :: .punct "(" :: rest =>
        let ps := parseParams n0 rest
        let b := parseBlock cfg n0 fuel ps.2.1
        ⟨.funDecl f ps.1 b.val, ps.2.2 ++ b.diags, b.rest, b.limit⟩
    | .kw "function" :: rest =>
        let sk := skipToBoundary rest
        ⟨.malformed ⟨posOf n0 toks, posOf n0 sk⟩,
          [⟨"malformed function declaration", spanAt (posOf n0 toks)⟩], sk, false⟩
    | t :: rest =>
        if startsExpr t then
          let e := parseExpr cfg n0 fuel (t :: rest)
          ⟨.exprStmt e.val, e.diags, eatSemi e.rest, e.limit⟩
        else
          let sk := skipToBoundary rest
          ⟨.malformed ⟨posOf n0 (t :: rest), posOf n0 sk⟩,
            [⟨"unexpected token", spanAt (posOf n0 (t :: rest))⟩], sk, false⟩
    | [] => ⟨.malformed (spanAt n0), [⟨"unexpected end of input", spanAt n0⟩], [], false⟩
  termination_by structural fuel

def parseDeclTail (cfg : Config) (n0 fuel : Nat) (p0 : Nat) (toks : List Tok) : PRes Stmt :=
  match fuel with
  | 0 => ⟨.malformed (spanAt p0), [], toks, !toks.isEmpty⟩
  | fuel + 1 =>
    match toks with
    | .ident x :: .punct "=" :: rest =>
        let e := parseExpr cfg n0 fuel rest
        ⟨.varDecl x e.val, e.diags, eatSemi e.rest, e.limit⟩
    | _ =>
        let sk := skipToBoundary toks
        ⟨.malformed ⟨p0, posOf n0 sk⟩, [⟨"malformed declaration", spanAt p0⟩], sk, false⟩
  termination_by structural fuel

def parseBlock (cfg : Config) (n0 fuel : Nat) (toks : List Tok) : PRes (List Stmt) :=
  match fuel with
  | 0 => ⟨[], [], toks, !toks.isEmpty⟩
  | fuel + 1 =>
    match toks with
    | .lbrace :: rest => parseStmts cfg n0 fuel true rest
    | _ =>
        let s := parseStmt cfg n0 fuel toks
        ⟨[s.val], s.diags, s.rest, s.limit⟩
  termination_by structural fuel

def parseExpr (cfg : Config) (n0 fuel : Nat) (toks : List Tok) : PRes Expr :=
  match fuel with
  | 0 => ⟨.malformedE (spanAt (posOf n0 toks)), [], toks, !toks.isEmpty⟩
  | fuel + 1 =>
    match toks with
    | .kw "await" :: rest =>
        let p0 := posOf n0 toks
        let e := parseExpr cfg n0 fuel rest
        ⟨.awaitE e.val (spanAt p0), e.diags, e.rest, e.limit⟩
    | _ =>
        let p := parsePrim cfg n0 fuel toks
        let q := parseTrailer cfg n0 fuel p.val p.rest
        ⟨q.val, p.diags ++ q.diags, q.rest, p.limit || q.limit⟩
  termination_by structural fuel

def parsePrim (cfg : Config) (n0 fuel : Nat) (toks : List Tok) : PRes Expr :=
  match fuel with
  | 0 => ⟨.malformedE (spanAt (posOf n0 toks)), [], toks, !toks.isEmpty⟩
  | fuel + 1 =>
    match toks with
    | .strTok s :: rest => ⟨.lit s, [], rest, false⟩
    | .numTok n :: rest => ⟨.lit (toString n), [], rest, false⟩
    | .kw "true" :: rest => ⟨.lit "true", [], rest, false⟩
    | .kw "false" :: rest => ⟨.lit "false", [], rest, false⟩
    | .kw "null" :: rest => ⟨.lit "null", [], rest, false⟩
    | .ident s :: .punct "=>" :: rest =>
        let b := parseArrowBody cfg n0 fuel rest
        ⟨.arrow [s] b.val, b.diags, b.rest, b.limit⟩
    | .ident s :: rest => ⟨.var s, [], rest, false⟩
    | .tagOpen tag :: rest =>
        let m := parseMarkup cfg n0 fuel tag (posOf n0 toks) rest
        ⟨.markup m.val, m.diags, m.rest, m.limit⟩
    | .punct "(" :: .punct ")" :: .punct "=>" :: rest =>
        let b := parseArrowBody cfg n0 fuel rest
        ⟨.arrow [] b.val, b.diags, b.rest, b.limit⟩
    | .punct "(" :: rest =>
        let e := parseExpr cfg n0 fuel rest
        (match e.rest with
         | .punct ")" :: .punct "=>" :: rest2 =>
             let b := parseArrowBody cfg n0 fuel rest2
             ⟨.arrow (paramsOf e.val) b.val, e.diags ++ b.diags, b.rest, e.limit || b.limit⟩
         | .punct ")" :: rest2 => ⟨e.val, e.diags, rest2, e.limit⟩
         | _ =>
             ⟨e.val, e.diags ++ [⟨"expected closing parenthesis", spanAt (posOf n0 e.rest)⟩],
               e.rest, e.limit⟩)
    | t :: rest =>
        ⟨.malformedE (spanAt (posOf n0 (t :: rest))),
          [⟨"unexpected token in expression", spanAt (posOf n0 (t :: rest))⟩], rest, false⟩
    | [] =>
        ⟨.malformedE (spanAt n0), [⟨"unexpected end of input in expression", spanAt n0⟩], [], false⟩
  termination_by structural fuel

def parseTrailer (cfg : Config) (n0 fuel : Nat) (e : Expr) (toks : List Tok) : PRes Expr :=
  match fuel with
  | 0 => ⟨e, [], toks, !toks.isEmpty⟩
  | fuel + 1 =>
    match toks with
    | .punct "." :: .ident f :: rest => parseTrailer cfg n0 fuel (.member e f) rest
    | .punct "(" :: rest =>
        let p0 := posOf n0 toks
        let a := parseArgs cfg n0 fuel rest
        let t := parseTrailer cfg n0 fuel (.call e a.val (spanAt p0)) a.rest
        ⟨t.val, a.diags ++ t.diags, t.rest, a.limit || t.limit⟩
    | _ => ⟨e, [], toks, false⟩
  termination_by structural fuel

def parseArgs (cfg : Config) (n0 fuel : Nat) (toks : List Tok) : PRes (List Expr) :=
  match fuel with
  | 0 => ⟨[], [], toks, !toks.isEmpty⟩
  | fuel + 1 =>
    match toks with
    | .punct ")" :: rest => ⟨[], [], rest, false⟩
    | [] => ⟨[], [⟨"unterminated argument list", spanAt n0⟩], [], false⟩
    | _ =>
        let e := parseExpr cfg n0 fuel toks
        (match e.rest with
         | .punct "," :: rest2 =>
             let r := parseArgs cfg n0 fuel rest2
             ⟨e.val :: r.val, e.diags ++ r.diags, r.rest, e.limit || r.limit⟩
         | .punct ")" :: rest2 => ⟨[e.val], e.diags, rest2, e.limit⟩
         | _ =>
             ⟨[e.val],
               e.diags ++ [⟨"expected closing parenthesis in arguments", spanAt (posOf n0 e.rest)⟩],
               e.rest, e.limit⟩)
  termination_by structural fuel

def parseArrowBody (cfg : Config) (n0 fuel : Nat) (toks : List Tok) : PRes (List Stmt) :=
  match fuel with
  | 0 => ⟨[], [], toks, !toks.isEmpty⟩
  | fuel + 1 =>
    match toks with
    | .lbrace :: rest => parseStmts cfg n0 fuel true rest
    | _ =>
        let e := parseExpr cfg n0 fuel toks
        ⟨[.ret (some e.val)], e.diags, e.rest, e.limit⟩
  termination_by structural fuel

def parseMarkup (cfg : Config) (n0 fuel : Nat) (tag : String) (openPos : Nat) (toks : List Tok) : PRes Markup :=
  match fuel with
  | 0 => ⟨.node tag [] [] true (spanAt openPos), [], toks, !toks.isEmpty⟩
  | fuel + 1 =>
    let a := parseAttrs cfg n0 fuel toks
    if a.val.2 then
      ⟨.node tag a.val.1 [] true ⟨openPos, posOf n0 a.rest⟩, a.diags, a.rest, a.limit⟩
    else
      let c := parseChildren cfg n0 fuel tag openPos a.rest
      ⟨.node tag a.val.1 c.val.1 (!c.val.2) ⟨openPos, posOf n0 c.rest⟩,
        a.diags ++ c.diags, c.rest, a.limit || c.limit⟩
  termination_by structural fuel

def parseAttrs (cfg : Config) (n0 fuel : Nat) (toks : List Tok) : PRes (List MAttr × Bool) :=
  match fuel with
  | 0 => ⟨([], true), [], toks, !toks.isEmpty⟩
  | fuel + 1 =>
    match toks with
    | .tagEnd sc :: rest => ⟨([], sc), [], rest, false⟩
    | .attrName nm :: .strTok s :: rest =>
        let p0 := posOf n0 (Tok.attrName nm :: Tok.strTok s :: rest)
        let r := parseAttrs cfg n0 fuel rest
        ⟨(.mk nm (.litStr s) ⟨p0, p0 + 2⟩ :: r.val.1, r.val.2), r.diags, r.rest, r.limit⟩
    | .attrName nm :: .lbrace :: rest =>
        let p0 := posOf n0 (Tok.attrName nm :: Tok.lbrace :: rest)
        let e := parseEmbedded cfg fuel (p0 + 1) rest
        let v := (match e.val with
          | some ex => MAttrVal.embedded ex
          | none => MAttrVal.litStr "")
        let r := parseAttrs cfg n0 fuel e.rest
        ⟨(.mk nm v ⟨p0, posOf n0 e.rest⟩ :: r.val.1, r.val.2),
          e.diags ++ r.diags, r.rest, e.limit || r.limit⟩
    | .attrName nm :: rest =>
        let p0 := posOf n0 (Tok.attrName nm :: rest)
        let r := parseAttrs cfg n0 fuel rest
        ⟨(.mk nm (.litStr "") (spanAt p0) :: r.val.1, r.val.2), r.diags, r.rest, r.limit⟩
    | [] => ⟨([], true), [⟨"unterminated tag", spanAt n0⟩], [], false⟩
    | t :: rest =>
        let r := parseAttrs cfg n0 fuel rest
        ⟨r.val, ⟨"unexpected token in tag", spanAt (posOf n0 (t :: rest))⟩ :: r.diags, r.rest, r.limit⟩
  termination_by structural fuel

def parseChildren (cfg : Config) (n0 fuel : Nat) (tag : String) (openPos : Nat) (toks : List Tok) : PRes (List MChild × Bool) :=
  match fuel with
  | 0 => ⟨([], false), [], toks, !toks.isEmpty⟩
  | fuel + 1 =>
    match toks with
    | [] => ⟨([], false), [⟨"unclosed tag " ++ tag, spanAt openPos⟩], [], false⟩
    | .tagClose t :: rest =>
        if t = tag then ⟨([], true), [], rest, false⟩
        else
          ⟨([], false), [⟨"mismatched closing tag " ++ t, spanAt (posOf n0 (Tok.tagClose t :: rest))⟩],
            .tagClose t :: rest, false⟩
    | .tagOpen t2 :: rest =>
        let m := parseMarkup cfg n0 fuel t2 (posOf n0 (Tok.tagOpen t2 :: rest)) rest
        let r := parseChildren cfg n0 fuel tag openPos m.rest
        ⟨(.sub m.val :: r.val.1, r.val.2), m.diags ++ r.diags, r.rest, m.limit || r.limit⟩
    | .jsxText s :: rest =>
        let r := parseChildren cfg n0 fuel tag openPos rest
        ⟨(.textRun s :: r.val.1, r.val.2), r.diags, r.rest, r.limit⟩
    | .commentTok _ :: rest => parseChildren cfg n0 fuel tag openPos rest
    | .lbrace :: rest =>
        let e := parseEmbedded cfg fuel (posOf n0 (Tok.lbrace :: rest)) rest
        let r := parseChildren cfg n0 fuel tag openPos e.rest
        (match e.val with
         | some ex => ⟨(.embedded ex :: r.val.1, r.val.2), e.diags ++ r.diags, r.rest, e.limit || r.limit⟩
         | none => ⟨r.val, e.diags ++ r.diags, r.rest, e.limit || r.limit⟩)
    | t :: rest =>
        let r := parseChildren cfg n0 fuel tag openPos rest
        ⟨r.val, ⟨"unexpected token in markup", spanAt (posOf n0 (t :: rest))⟩ :: r.diags, r.rest, r.limit⟩
  termination_by structural fuel

/-- Modelled from the spec: §4.2 — an embedded-expression sub-parse on the
token range up to the matching closing brace.  A range containing only
comments is not an embedded expression at all (it contributes nothing and is
not an error); otherwise the Tolerant Parser runs on the range. -/
def parseEmbedded (cfg : Config) (fuel : Nat) (bracePos : Nat) (toks : List Tok) : PRes (Option Expr) :=
  match fuel with
  | 0 => ⟨none, [], toks, !toks.isEmpty⟩
  | fuel + 1 =>
    let tb := takeBalanced 0 toks
    let closeDiags : List RecoveryDiag :=
      if tb.2.2 then [] else [⟨"unterminated embedded expression", spanAt bracePos⟩]
    let core := tb.1.filter (fun t => ! t.isComment)
    if core.isEmpty then ⟨none, closeDiags, tb.2.1, false⟩
    else
      let e := parseExpr cfg (bracePos + 1 + core.length) fuel core
      let extra : List RecoveryDiag :=
        if e.diags.isEmpty && !e.rest.isEmpty then
          [⟨"unexpected trailing tokens in embedded expression",
            spanAt (bracePos + 1 + core.length - e.rest.length)⟩]
        else []
      ⟨some e.val, closeDiags ++ e.diags ++ extra, tb.2.1, e.limit⟩
  termination_by structural fuel

end

/-- Modelled from the spec: the full front end on a token stream, with the
configured ceiling as fuel. -/
def parseTop (cfg : Config) (toks : List Tok) : PRes (List Stmt) :=
  parseStmts cfg toks.length cfg.maxDepth false toks

def structuralLimitDiag (p : Nat) : Diag :=
  ⟨.error, "analysis limit exceeded", spanAt p, .structuralLimit⟩

/-- Modelled from the spec: §2 data flow — lexer output is partitioned and
parsed tolerantly, the projector produces the pure-JS view, the pattern
analyzer contributes findings, and the aggregator merges, deduplicates and
orders all diagnostics.  If the depth/size ceiling was exceeded, the partial
result carries exactly one fatal StructuralLimit diagnostic (§7). -/
def analyzeCore (cfg : Config) (toks : List Tok) : AnalysisResult :=
  ⟨aggregate ((parseTop cfg toks).diags.map RecoveryDiag.toDiag
      ++ patternDiags cfg (parseTop cfg toks).val
      ++ (if (parseTop cfg toks).limit then
            [structuralLimitDiag (posOf toks.length (parseTop cfg toks).rest)]
          else [])),
    projectSL (parseTop cfg toks).val⟩

/-- Modelled from the spec: §6/§7 — the API entry point.  Malformed input is
always data; only a programming-contract violation (an invalid configuration,
here a zero ceiling) is reported as a precondition failure. -/
def analyze (cfg : Config) (toks : List Tok) : Except String AnalysisResult :=
  if cfg.maxDepth = 0 then .error "invalid configuration: maxDepth must be positive"
  else .ok (analyzeCore cfg toks)

def isSynDiag (d : Diag) : Bool := decide (d.kind = .syntaxRecovery)

def isSLDiag (d : Diag) : Bool := decide (d.kind = .structuralLimit)

def isHookDiag (d : Diag) : Bool := decide (d.kind = .patternMatch "hook-usage")

def isSinkDiagAt (sp : Span) (d : Diag) : Bool :=
  decide (d.kind = .patternMatch "dangerous-sink") && decide (d.span = sp)

def countDiags (p : Diag → Bool) (ds : List Diag) : Nat := ds.countP p

mutual

/-- Counts the embedded expressions contributed to a tree: one per
EmbeddedExpression child or attribute value in markup, and one per spliced
entry of an OpaqueMarkup placeholder list in the pure-JS view. -/
def embE : Expr → Nat
  | .lit _ => 0
  | .var _ => 0
  | .member o _ => embE o
  | .call c args _ => embE c + embEL args
  | .arrow _ b => embSL b
  | .awaitE e _ => embE e
  | .markup (.node _ attrs ch _ _) => embAL attrs + embCL ch
  | .placeholder _ es _ => es.length + embEL es
  | .comma es _ => embEL es
  | .malformedE _ => 0

def embEL : List Expr → Nat
  | [] => 0
  | e :: es => embE e + embEL es

def embS : Stmt → Nat
  | .exprStmt e => embE e
  | .varDecl _ e => embE e
  | .ret none => 0
  | .ret (some e) => embE e
  | .ifS c t e => embE c + embSL t + embSL e
  | .tryS b c f => embSL b + embSL c + embSL f
  | .loop c b => embE c + embSL b
  | .funDecl _ _ b => embSL b
  | .malformed _ => 0

def embSL : List Stmt → Nat
  | [] => 0
  | s :: ss => embS s + embSL ss

def embAL : List MAttr → Nat
  | [] => 0
  | .mk _ (.embedded e) _ :: rest => 1 + embE e + embAL rest
  | .mk _ (.litStr _) _ :: rest => embAL rest

def embCL : List MChild → Nat
  | [] => 0
  | .sub (.node _ attrs ch _ _) :: rest => embAL attrs + embCL ch + embCL rest
  | .textRun _ :: rest => embCL rest
  | .embedded e :: rest => 1 + embE e + embCL rest

end

/-- A configuration in the shape external collaborators use on this fixture
corpus: a generous ceiling, the raw-HTML sink attribute, the `use` hook-name
convention. -/
def defaultCfg : Config := ⟨200, ["dangerouslySetInnerHTML"], ["use"]⟩

/-- Token stream of fixture `src/test5_invalid_js_in_jsx.jsx`: a component
returning markup whose children contain the statement-in-expression-position
braces and, right after them, a comment-only brace pair.  Token indices:
0 `const`, 1 `App`, 2 `=`, 3 `(`, 4 `)`, 5 arrow, 6 left brace, 7 `return`,
8 `(`, 9 open `div`, 10 end-of-open-tag, 11 left brace, 12 `if`, 13 `(`,
14 `true`, 15 `)`, 16 left brace, 17 `return`, 18 `'Hi'`, 19 `;`,
20 right brace, 21 right brace, 22 left brace, 23 comment, 24 right brace,
25 close `div`, 26 `)`, 27 `;`, 28 right brace, 29 `;`. -/
def invalidJsxFixture : List Tok :=
  [.kw "const", .ident "App", .punct "=", .punct "(", .punct ")", .punct "=>", .lbrace,
   .kw "return", .punct "(", .tagOpen "div", .tagEnd false,
   .lbrace, .kw "if", .punct "(", .kw "true", .punct ")", .lbrace, .kw "return",
   .strTok "Hi", .punct ";", .rbrace, .rbrace,
   .lbrace, .commentTok " Invalid JS ", .rbrace,
   .tagClose "div", .punct ")", .punct ";", .rbrace, .punct ";"]

/-- A stream whose close tag does not match the innermost open tag
(`<a><b></a>`), followed by a further statement. -/
def mismatchFixture : List Tok :=
  [.tagOpen "a", .tagEnd false, .tagOpen "b", .tagEnd false, .tagClose "a",
   .kw "const", .ident "x", .punct "=", .numTok 1, .punct ";"]

/-- A well-formed stream longer than the tiny ceiling below. -/
def overflowFixture : List Tok :=
  [.kw "const", .ident "x", .punct "=", .numTok 1, .punct ";"]

def tinyCfg : Config := ⟨2, [], []⟩

/-! ### Aggregator lemmas -/

theorem diagLe_total (a b : Diag) : diagLe a b = true ∨ diagLe b a = true := by
  simp only [diagLe, Bool.or_eq_true, Bool.and_eq_true, decide_eq_true_eq]
  omega

theorem diagLe_trans {a b c : Diag} (h1 : diagLe a b = true) (h2 : diagLe b c = true) :
    diagLe a c = true := by
  simp only [diagLe, Bool.or_eq_true, Bool.and_eq_true, decide_eq_true_eq] at h1 h2 ⊢
  omega

theorem insertD_perm (d : Diag) (l : List Diag) : List.Perm (insertD d l) (d :: l) := by
  induction l with
  | nil => simp [insertD]
  | cons e es ih =>
      simp only [insertD]
      by_cases h : diagLe d e
      · simp [h]
      · simp only [h, if_false]
        exact (ih.cons e).trans (List.Perm.swap d e es)

theorem sortDiags_perm (l : List Diag) : List.Perm (sortDiags l) l := by
  induction l with
  | nil => simp [sortDiags]
  | cons d ds ih => exact (insertD_perm d (sortDiags ds)).trans (ih.cons d)

theorem insertD_sorted (d : Diag) (l : List Diag)
    (h : l.Pairwise (fun a b => diagLe a b = true)) :
    (insertD d l).Pairwise (fun a b => diagLe a b = true) := by
  induction l with
  | nil => simp [insertD]
  | cons e es ih =>
      rcases List.pairwise_cons.mp h with ⟨he, hes⟩
      by_cases hle : diagLe d e
      · simp only [insertD, if_pos hle]
        refine List.pairwise_cons.mpr ⟨?_, h⟩
        intro x hx
        rcases List.mem_cons.mp hx with rfl | hxs
        · exact hle
        · exact diagLe_trans hle (he x hxs)
      · simp only [insertD, if_neg hle]
        refine List.pairwise_cons.mpr ⟨?_, ih hes⟩
        intro x hx
        have hx' := (insertD_perm d es).mem_iff.mp hx
        rcases List.mem_cons.mp hx' with rfl | hxs
        · rcases diagLe_total x e with h1 | h1
          · exact absurd h1 hle
          · exact h1
        · exact he x hxs

theorem sortDiags_sorted (l : List Diag) :
    (sortDiags l).Pairwise (fun a b => diagLe a b = true) := by
  induction l with
  | nil => simp [sortDiags]
  | cons d ds ih => exact insertD_sorted d (sortDiags ds) ih

theorem dedupSeen_sublist (l : List Diag) :
    ∀ seen, List.Sublist (dedupSeen seen l) l := by
  induction l with
  | nil => intro seen; simp [dedupSeen]
  | cons d ds ih =>
      intro seen
      rw [dedupSeen]
      by_cases h : diagKey d ∈ seen
      · simp only [if_pos h]
        exact (ih seen).cons d
      · simp only [if_neg h]
        exact (ih (diagKey d :: seen)).cons₂ d

theorem dedupDiags_sublist (l : List Diag) : List.Sublist (dedupDiags l) l :=
  dedupSeen_sublist l []

theorem dedupSeen_mem_key (l : List Diag) :
    ∀ seen, ∀ d ∈ l, diagKey d ∈ seen ∨ ∃ e ∈ dedupSeen seen l, diagKey e = diagKey d := by
  induction l with
  | nil => intro seen d hd; exact absurd hd (List.not_mem_nil d)
  | cons a ds ih =>
      intro seen d hd
      rw [dedupSeen]
      by_cases h : diagKey a ∈ seen
      · simp only [if_pos h]
        rcases List.mem_cons.mp hd with rfl | hds
        · exact Or.inl h
        · exact ih seen d hds
      · simp only [if_neg h]
        rcases List.mem_cons.mp hd with rfl | hds
        · exact Or.inr ⟨d, List.mem_cons_self _ _, rfl⟩
        · rcases ih (diagKey a :: seen) d hds with hseen | ⟨e, he, hke⟩
          · rcases List.mem_cons.mp hseen with hk | hk
            · exact Or.inr ⟨a, List.mem_cons_self _ _, hk.symm⟩
            · exact Or.inl hk
          · exact Or.inr ⟨e, List.mem_cons_of_mem a he, hke⟩

theorem dedupDiags_mem_key (l : List Diag) (d : Diag) (hd : d ∈ l) :
    ∃ e ∈ dedupDiags l, diagKey e = diagKey d :=
  (dedupSeen_mem_key l [] d hd).resolve_left (List.not_mem_nil _)

theorem dedupSeen_keys_fresh (l : List Diag) :
    ∀ seen, ∀ e ∈ dedupSeen seen l, diagKey e ∉ seen := by
  induction l with
  | nil => intro seen e he; exact absurd he (List.not_mem_nil e)
  | cons d ds ih =>
      intro seen e he
      rw [dedupSeen] at he
      by_cases h : diagKey d ∈ seen
      · rw [if_pos h] at he
        exact ih seen e he
      · rw [if_neg h] at he
        rcases List.mem_cons.mp he with rfl | he2
        · exact h
        · intro hseen
          exact ih (diagKey d :: seen) e he2 (List.mem_cons_of_mem _ hseen)

theorem dedupSeen_pairwise (l : List Diag) :
    ∀ seen, (dedupSeen seen l).Pairwise (fun a b => diagKey a ≠ diagKey b) := by
  induction l with
  | nil => intro seen; simp [dedupSeen]
  | cons d ds ih =>
      intro seen
      rw [dedupSeen]
      by_cases h : diagKey d ∈ seen
      · simp only [if_pos h]
        exact ih seen
      · simp only [if_neg h]
        refine List.pairwise_cons.mpr ⟨?_, ih (diagKey d :: seen)⟩
        intro x hx hk
        exact dedupSeen_keys_fresh ds (diagKey d :: seen) x hx (hk ▸ List.mem_cons_self _ _)

theorem dedupDiags_pairwise (l : List Diag) :
    (dedupDiags l).Pairwise (fun a b => diagKey a ≠ diagKey b) :=
  dedupSeen_pairwise l []

theorem aggregate_countP_dedup (p : Diag → Bool) (l : List Diag) :
    (aggregate l).countP p = (dedupDiags l).countP p :=
  (sortDiags_perm (dedupDiags l)).countP_eq p

theorem aggregate_countP_le (p : Diag → Bool) (l : List Diag) :
    (aggregate l).countP p ≤ l.countP p := by
  rw [aggregate_countP_dedup]
  exact (dedupDiags_sublist l).countP_le p

theorem aggregate_countP_zero (p : Diag → Bool) (l : List Diag) (h : l.countP p = 0) :
    (aggregate l).countP p = 0 :=
  Nat.le_zero.mp (h ▸ aggregate_countP_le p l)

theorem aggregate_countP_one (p : Diag → Bool) (l : List Diag)
    (hk : ∀ a b, diagKey a = diagKey b → p a = p b) (h : l.countP p = 1) :
    (aggregate l).countP p = 1 := by
  have hle : (aggregate l).countP p ≤ 1 := h ▸ aggregate_countP_le p l
  have hpos : 0 < (aggregate l).countP p := by
    obtain ⟨a, ha, hpa⟩ := List.countP_pos_iff.mp (by omega : 0 < l.countP p)
    obtain ⟨e, he, hke⟩ := dedupDiags_mem_key l a ha
    have hpe : p e = true := by rw [hk e a hke]; exact hpa
    exact List.countP_pos_iff.mpr ⟨e, (sortDiags_perm _).mem_iff.mpr he, hpe⟩
  omega

theorem aggregate_mem_key (l : List Diag) (d : Diag) (hd : d ∈ l) :
    ∃ e ∈ aggregate l, diagKey e = diagKey d := by
  obtain ⟨e, he, hke⟩ := dedupDiags_mem_key l d hd
  exact ⟨e, (sortDiags_perm _).mem_iff.mpr he, hke⟩

theorem aggregate_subset (l : List Diag) : ∀ e ∈ aggregate l, e ∈ l := fun e he =>
  (dedupDiags_sublist l).subset ((sortDiags_perm _).mem_iff.mp he)

theorem aggregate_sorted (l : List Diag) :
    (aggregate l).Pairwise (fun a b => diagLe a b = true) :=
  sortDiags_sorted (dedupDiags l)

theorem aggregate_pairwise_key (l : List Diag) :
    (aggregate l).Pairwise (fun a b => diagKey a ≠ diagKey b) :=
  (dedupDiags_pairwise l).perm (sortDiags_perm _).symm (fun h h2 => h h2.symm)

/-! ### Traversal append helpers -/

theorem cntEL_append (t : CtorTag) (xs ys : List Expr) :
    cntEL t (xs ++ ys) = cntEL t xs + cntEL t ys := by
  induction xs with
  | nil => simp [cntEL]
  | cons e es ih => simp [cntEL, ih]; omega

theorem hookEL_append (cfg : Config) (c : Bool) (xs ys : List Expr) :
    hookEL cfg c (xs ++ ys) = hookEL cfg c xs ++ hookEL cfg c ys := by
  induction xs with
  | nil => simp [hookEL]
  | cons e es ih => simp [hookEL, ih]

theorem sinkEL_append (cfg : Config) (xs ys : List Expr) :
    sinkEL cfg (xs ++ ys) = sinkEL cfg xs ++ sinkEL cfg ys := by
  induction xs with
  | nil => simp [sinkEL]
  | cons e es ih => simp [sinkEL, ih]

/-! ### Projection preserves control constructs (claim C1 machinery) -/

mutual

theorem cnt_projE (t : CtorTag) (e : Expr) : cntE t (projectE e) = cntE t e := by
  cases e with
  | lit s => rfl
  | var n => rfl
  | member o f => simp [projectE, cntE, cnt_projE t o]
  | call c args sp => simp [projectE, cntE, cnt_projE t c, cnt_projEL t args]
  | arrow ps b => simp [projectE, cntE, cnt_projSL t b]
  | awaitE e sp => simp [projectE, cntE, cnt_projE t e]
  | markup m =>
      cases m with
      | node tag attrs ch sc sp =>
          simp [projectE, cntE, cntEL_append, cnt_collectAL t attrs, cnt_collectCL t ch]
  | placeholder tg es sp => simp [projectE, cntE, cnt_projEL t es]
  | comma es sp => simp [projectE, cntE, cnt_projEL t es]
  | malformedE sp => rfl

theorem cnt_projEL (t : CtorTag) (es : List Expr) : cntEL t (projectEL es) = cntEL t es := by
  cases es with
  | nil => rfl
  | cons e rest => simp [projectEL, cntEL, cnt_projE t e, cnt_projEL t rest]

theorem cnt_projS (t : CtorTag) (s : Stmt) : cntS t (projectS s) = cntS t s := by
  cases s with
  | exprStmt e => simp [projectS, cntS, cnt_projE t e]
  | varDecl n e => simp [projectS, cntS, cnt_projE t e]
  | ret a =>
      cases a with
      | none => rfl
      | some e => simp [projectS, cntS, cnt_projE t e]
  | ifS c th el => simp [projectS, cntS, cnt_projE t c, cnt_projSL t th, cnt_projSL t el]
  | tryS b c f => simp [projectS, cntS, cnt_projSL t b, cnt_projSL t c, cnt_projSL t f]
  | loop c b => simp [projectS, cntS, cnt_projE t c, cnt_projSL t b]
  | funDecl n ps b => simp [projectS, cntS, cnt_projSL t b]
  | malformed sp => rfl

theorem cnt_projSL (t : CtorTag) (ss : List Stmt) : cntSL t (projectSL ss) = cntSL t ss := by
  cases ss with
  | nil => rfl
  | cons s rest => simp [projectSL, cntSL, cnt_projS t s, cnt_projSL t rest]

theorem cnt_collectAL (t : CtorTag) (attrs : List MAttr) :
    cntEL t (collectAL attrs) = cntAL t attrs := by
  cases attrs with
  | nil => rfl
  | cons a rest =>
      cases a with
      | mk nm v sp =>
          cases v with
          | litStr s => simp [collectAL, cntAL, cnt_collectAL t rest]
          | embedded e => simp [collectAL, cntEL, cntAL, cnt_projE t e, cnt_collectAL t rest]

theorem cnt_collectCL (t : CtorTag) (ch : List MChild) :
    cntEL t (collectCL ch) = cntCL t ch := by
  cases ch with
  | nil => rfl
  | cons c rest =>
      cases c with
      | sub m =>
          cases m with
          | node tag attrs ch2 sc sp =>
              simp [collectCL, cntCL, cntEL_append, cnt_collectAL t attrs,
                cnt_collectCL t ch2, cnt_collectCL t rest]
              omega
      | textRun s => simp [collectCL, cntCL, cnt_collectCL t rest]
      | embedded e => simp [collectCL, cntEL, cntCL, cnt_projE t e, cnt_collectCL t rest]

end

theorem stmtCtorName_project (s : Stmt) : stmtCtorName (projectS s) = stmtCtorName s := by
  cases s with
  | ret a => cases a <;> rfl
  | exprStmt e => rfl
  | varDecl n e => rfl
  | ifS c t e => rfl
  | tryS b c f => rfl
  | loop c b => rfl
  | funDecl n ps b => rfl
  | malformed sp => rfl

/-! ### The hook-usage rule does not see the projection (claims C4, C5, C9) -/

theorem calleeHookName_project (e : Expr) : calleeHookName (projectE e) = calleeHookName e := by
  cases e with
  | markup m => cases m with | node tag attrs ch sc sp => rfl
  | lit s => rfl
  | var n => rfl
  | member o f => rfl
  | call c args sp => rfl
  | arrow ps b => rfl
  | awaitE e sp => rfl
  | placeholder t es sp => rfl
  | comma es sp => rfl
  | malformedE sp => rfl

theorem isHookCallee_project (cfg : Config) (e : Expr) :
    isHookCallee cfg (projectE e) = isHookCallee cfg e := by
  simp [isHookCallee, calleeHookName_project]

mutual

theorem hook_projE (cfg : Config) (c : Bool) (e : Expr) :
    hookE cfg c (projectE e) = hookE cfg c e := by
  cases e with
  | lit s => rfl
  | var n => rfl
  | member o f => simp [projectE, hookE, hook_projE cfg c o]
  | call callee args sp =>
      simp [projectE, hookE, isHookCallee_project, hook_projE cfg c callee, hook_projEL cfg c args]
  | arrow ps b => simp [projectE, hookE, hook_projSL cfg false b]
  | awaitE e sp => simp [projectE, hookE, hook_projE cfg c e]
  | markup m =>
      cases m with
      | node tag attrs ch sc sp =>
          simp [projectE, hookE, hookEL_append, hook_collectAL cfg c attrs, hook_collectCL cfg c ch]
  | placeholder t es sp => simp [projectE, hookE, hook_projEL cfg c es]
  | comma es sp => simp [projectE, hookE, hook_projEL cfg c es]
  | malformedE sp => rfl

theorem hook_projEL (cfg : Config) (c : Bool) (es : List Expr) :
    hookEL cfg c (projectEL es) = hookEL cfg c es := by
  cases es with
  | nil => rfl
  | cons e rest => simp [projectEL, hookEL, hook_projE cfg c e, hook_projEL cfg c rest]

theorem hook_projS (cfg : Config) (c : Bool) (s : Stmt) :
    hookS cfg c (projectS s) = hookS cfg c s := by
  cases s with
  | exprStmt e => simp [projectS, hookS, hook_projE cfg c e]
  | varDecl n e => simp [projectS, hookS, hook_projE cfg c e]
  | ret a =>
      cases a with
      | none => rfl
      | some e => simp [projectS, hookS, hook_projE cfg c e]
  | ifS co th el =>
      simp [projectS, hookS, hook_projE cfg true co, hook_projSL cfg true th, hook_projSL cfg true el]
  | tryS b cb fb =>
      simp [projectS, hookS, hook_projSL cfg c b, hook_projSL cfg c cb, hook_projSL cfg c fb]
  | loop co b => simp [projectS, hookS, hook_projE cfg true co, hook_projSL cfg true b]
  | funDecl n ps b => simp [projectS, hookS, hook_projSL cfg false b]
  | malformed sp => rfl

theorem hook_projSL (cfg : Config) (c : Bool) (ss : List Stmt) :
    hookSL cfg c (projectSL ss) = hookSL cfg c ss := by
  cases ss with
  | nil => rfl
  | cons s rest => simp [projectSL, hookSL, hook_projS cfg c s, hook_projSL cfg c rest]

theorem hook_collectAL (cfg : Config) (c : Bool) (attrs : List MAttr) :
    hookEL cfg c (collectAL attrs) = hookAL cfg c attrs := by
  cases attrs with
  | nil => rfl
  | cons a rest =>
      cases a with
      | mk nm v sp =>
          cases v with
          | litStr s => simp [collectAL, hookAL, hook_collectAL cfg c rest]
          | embedded e =>
              simp [collectAL, hookEL, hookAL, hook_projE cfg c e, hook_collectAL cfg c rest]

theorem hook_collectCL (cfg : Config) (c : Bool) (ch : List MChild) :
    hookEL cfg c (collectCL ch) = hookCL cfg c ch := by
  cases ch with
  | nil => rfl
  | cons x rest =>
      cases x with
      | sub m =>
          cases m with
          | node tag attrs ch2 sc sp =>
              simp [collectCL, hookCL, hookEL_append, hook_collectAL cfg c attrs,
                hook_collectCL cfg c ch2, hook_collectCL cfg c rest]
      | textRun s => simp [collectCL, hookCL, hook_collectCL cfg c rest]
      | embedded e =>
          simp [collectCL, hookEL, hookCL, hook_projE cfg c e, hook_collectCL cfg c rest]

end

/-! ### The hook-usage rule does not see the neutralisation (claim C5) -/

theorem calleeHookName_neutralize (e : Expr) : calleeHookName (neutralizeE e) = calleeHookName e := by
  cases e with
  | markup m => cases m with | node tag attrs ch sc sp => rfl
  | lit s => rfl
  | var n => rfl
  | member o f => rfl
  | call c args sp => rfl
  | arrow ps b => rfl
  | awaitE e sp => rfl
  | placeholder t es sp => rfl
  | comma es sp => rfl
  | malformedE sp => rfl

theorem isHookCallee_neutralize (cfg : Config) (e : Expr) :
    isHookCallee cfg (neutralizeE e) = isHookCallee cfg e := by
  simp [isHookCallee, calleeHookName_neutralize]

mutual

theorem hook_neutE (cfg : Config) (c : Bool) (e : Expr) :
    hookE cfg c (neutralizeE e) = hookE cfg c e := by
  cases e with
  | lit s => rfl
  | var n => rfl
  | member o f => simp [neutralizeE, hookE, hook_neutE cfg c o]
  | call callee args sp =>
      simp [neutralizeE, hookE, isHookCallee_neutralize, hook_neutE cfg c callee,
        hook_neutEL cfg c args]
  | arrow ps b => simp [neutralizeE, hookE, hook_neutSL cfg false b]
  | awaitE e sp => simp [neutralizeE, hookE, hook_neutE cfg c e]
  | markup m =>
      cases m with
      | node tag attrs ch sc sp =>
          simp [neutralizeE, hookE, hookEL_append, hook_ncollectAL cfg c attrs,
            hook_ncollectCL cfg c ch]
  | placeholder t es sp => simp [neutralizeE, hookE, hook_neutEL cfg c es]
  | comma es sp => simp [neutralizeE, hookE, hook_neutEL cfg c es]
  | malformedE sp => rfl

theorem hook_neutEL (cfg : Config) (c : Bool) (es : List Expr) :
    hookEL cfg c (neutralizeEL es) = hookEL cfg c es := by
  cases es with
  | nil => rfl
  | cons e rest => simp [neutralizeEL, hookEL, hook_neutE cfg c e, hook_neutEL cfg c rest]

theorem hook_neutS (cfg : Config) (c : Bool) (s : Stmt) :
    hookS cfg c (neutralizeS s) = hookS cfg c s := by
  cases s with
  | exprStmt e => simp [neutralizeS, hookS, hook_neutE cfg c e]
  | varDecl n e => simp [neutralizeS, hookS, hook_neutE cfg c e]
  | ret a =>
      cases a with
      | none => rfl
      | some e => simp [neutralizeS, hookS, hook_neutE cfg c e]
  | ifS co th el =>
      simp [neutralizeS, hookS, hook_neutE cfg true co, hook_neutSL cfg true th,
        hook_neutSL cfg true el]
  | tryS b cb fb =>
      simp [neutralizeS, hookS, hook_neutSL cfg c b, hook_neutSL cfg c cb, hook_neutSL cfg c fb]
  | loop co b => simp [neutralizeS, hookS, hook_neutE cfg true co, hook_neutSL cfg true b]
  | funDecl n ps b => simp [neutralizeS, hookS, hook_neutSL cfg false b]
  | malformed sp => rfl

theorem hook_neutSL (cfg : Config) (c : Bool) (ss : List Stmt) :
    hookSL cfg c (neutralizeSL ss) = hookSL cfg c ss := by
  cases ss with
  | nil => rfl
  | cons s rest => simp [neutralizeSL, hookSL, hook_neutS cfg c s, hook_neutSL cfg c rest]

theorem hook_ncollectAL (cfg : Config) (c : Bool) (attrs : List MAttr) :
    hookEL cfg c (ncollectAL attrs) = hookAL cfg c attrs := by
  cases attrs with
  | nil => rfl
  | cons a rest =>
      cases a with
      | mk nm v sp =>
          cases v with
          | litStr s => simp [ncollectAL, hookAL, hook_ncollectAL cfg c rest]
          | embedded e =>
              simp [ncollectAL, hookEL, hookAL, hook_neutE cfg c e, hook_ncollectAL cfg c rest]

theorem hook_ncollectCL (cfg : Config) (c : Bool) (ch : List MChild) :
    hookEL cfg c (ncollectCL ch) = hookCL cfg c ch := by
  cases ch with
  | nil => rfl
  | cons x rest =>
      cases x with
      | sub m =>
          cases m with
          | node tag attrs ch2 sc sp =>
              simp [ncollectCL, hookCL, hookEL_append, hook_ncollectAL cfg c attrs,
                hook_ncollectCL cfg c ch2, hook_ncollectCL cfg c rest]
      | textRun s => simp [ncollectCL, hookCL, hook_ncollectCL cfg c rest]
      | embedded e =>
          simp [ncollectCL, hookEL, hookCL, hook_neutE cfg c e, hook_ncollectCL cfg c rest]

end

/-! ### Neutralised trees contain no markup, hence no sink findings (claim C5) -/

mutual

theorem sink_neutE (cfg : Config) (e : Expr) : sinkE cfg (neutralizeE e) = [] := by
  cases e with
  | lit s => rfl
  | var n => rfl
  | member o f => simp [neutralizeE, sinkE, sink_neutE cfg o]
  | call callee args sp =>
      simp [neutralizeE, sinkE, sink_neutE cfg callee, sink_neutEL cfg args]
  | arrow ps b => simp [neutralizeE, sinkE, sink_neutSL cfg b]
  | awaitE e sp => simp [neutralizeE, sinkE, sink_neutE cfg e]
  | markup m =>
      cases m with
      | node tag attrs ch sc sp =>
          simp [neutralizeE, sinkE, sinkEL_append, sink_ncollectAL cfg attrs, sink_ncollectCL cfg ch]
  | placeholder t es sp => simp [neutralizeE, sinkE, sink_neutEL cfg es]
  | comma es sp => simp [neutralizeE, sinkE, sink_neutEL cfg es]
  | malformedE sp => rfl

theorem sink_neutEL (cfg : Config) (es : List Expr) : sinkEL cfg (neutralizeEL es) = [] := by
  cases es with
  | nil => rfl
  | cons e rest => simp [neutralizeEL, sinkEL, sink_neutE cfg e, sink_neutEL cfg rest]

theorem sink_neutS (cfg : Config) (s : Stmt) : sinkS cfg (neutralizeS s) = [] := by
  cases s with
  | exprStmt e => simp [neutralizeS, sinkS, sink_neutE cfg e]
  | varDecl n e => simp [neutralizeS, sinkS, sink_neutE cfg e]
  | ret a =>
      cases a with
      | none => rfl
      | some e => simp [neutralizeS, sinkS, sink_neutE cfg e]
  | ifS co th el =>
      simp [neutralizeS, sinkS, sink_neutE cfg co, sink_neutSL cfg th, sink_neutSL cfg el]
  | tryS b cb fb =>
      simp [neutralizeS, sinkS, sink_neutSL cfg b, sink_neutSL cfg cb, sink_neutSL cfg fb]
  | loop co b => simp [neutralizeS, sinkS, sink_neutE cfg co, sink_neutSL cfg b]
  | funDecl n ps b => simp [neutralizeS, sinkS, sink_neutSL cfg b]
  | malformed sp => rfl

theorem sink_neutSL (cfg : Config) (ss : List Stmt) : sinkSL cfg (neutralizeSL ss) = [] := by
  cases ss with
  | nil => rfl
  | cons s rest => simp [neutralizeSL, sinkSL, sink_neutS cfg s, sink_neutSL cfg rest]

theorem sink_ncollectAL (cfg : Config) (attrs : List MAttr) : sinkEL cfg (ncollectAL attrs) = [] := by
  cases attrs with
  | nil => rfl
  | cons a rest =>
      cases a with
      | mk nm v sp =>
          cases v with
          | litStr s => simp [ncollectAL, sink_ncollectAL cfg rest]
          | embedded e => simp [ncollectAL, sinkEL, sink_neutE cfg e, sink_ncollectAL cfg rest]

theorem sink_ncollectCL (cfg : Config) (ch : List MChild) : sinkEL cfg (ncollectCL ch) = [] := by
  cases ch with
  | nil => rfl
  | cons x rest =>
      cases x with
      | sub m =>
          cases m with
          | node tag attrs ch2 sc sp =>
              simp [ncollectCL, sinkEL_append, sink_ncollectAL cfg attrs,
                sink_ncollectCL cfg ch2, sink_ncollectCL cfg rest]
      | textRun s => simp [ncollectCL, sink_ncollectCL cfg rest]
      | embedded e => simp [ncollectCL, sinkEL, sink_neutE cfg e, sink_ncollectCL cfg rest]

end

/-! ### Hook-free trees yield no hook findings (claims C4, C9) -/

mutual

theorem hookFree_empty_E (cfg : Config) (c : Bool) (e : Expr) (h : hookFreeE cfg e = true) :
    hookE cfg c e = [] := by
  cases e with
  | lit s => rfl
  | var n => rfl
  | member o f => exact hookFree_empty_E cfg c o (by simpa [hookFreeE] using h)
  | call callee args sp =>
      simp only [hookFreeE, Bool.and_eq_true, Bool.not_eq_true'] at h
      obtain ⟨⟨hcall, hcallee⟩, hargs⟩ := h
      simp [hookE, hcall, hookFree_empty_E cfg c callee hcallee, hookFree_empty_EL cfg c args hargs]
  | arrow ps b =>
      simp only [hookFreeE] at h
      simp [hookE, hookFree_empty_SL cfg false b h]
  | awaitE e sp => exact hookFree_empty_E cfg c e (by simpa [hookFreeE] using h)
  | markup m =>
      cases m with
      | node tag attrs ch sc sp =>
          simp only [hookFreeE, Bool.and_eq_true] at h
          simp [hookE, hookFree_empty_AL cfg c attrs h.1, hookFree_empty_CL cfg c ch h.2]
  | placeholder t es sp =>
      simp only [hookFreeE] at h
      simp [hookE, hookFree_empty_EL cfg c es h]
  | comma es sp =>
      simp only [hookFreeE] at h
      simp [hookE, hookFree_empty_EL cfg c es h]
  | malformedE sp => rfl

theorem hookFree_empty_EL (cfg : Config) (c : Bool) (es : List Expr)
    (h : hookFreeEL cfg es = true) : hookEL cfg c es = [] := by
  cases es with
  | nil => rfl
  | cons e rest =>
      simp only [hookFreeEL, Bool.and_eq_true] at h
      simp [hookEL, hookFree_empty_E cfg c e h.1, hookFree_empty_EL cfg c rest h.2]

theorem hookFree_empty_S (cfg : Config) (c : Bool) (s : Stmt) (h : hookFreeS cfg s = true) :
    hookS cfg c s = [] := by
  cases s with
  | exprStmt e => exact hookFree_empty_E cfg c e (by simpa [hookFreeS] using h)
  | varDecl n e => exact hookFree_empty_E cfg c e (by simpa [hookFreeS] using h)
  | ret a =>
      cases a with
      | none => rfl
      | some e => exact hookFree_empty_E cfg c e (by simpa [hookFreeS] using h)
  | ifS co th el =>
      simp only [hookFreeS, Bool.and_eq_true] at h
      simp [hookS, hookFree_empty_E cfg true co h.1.1, hookFree_empty_SL cfg true th h.1.2,
        hookFree_empty_SL cfg true el h.2]
  | tryS b cb fb =>
      simp only [hookFreeS, Bool.and_eq_true] at h
      simp [hookS, hookFree_empty_SL cfg c b h.1.1, hookFree_empty_SL cfg c cb h.1.2,
        hookFree_empty_SL cfg c fb h.2]
  | loop co b =>
      simp only [hookFreeS, Bool.and_eq_true] at h
      simp [hookS, hookFree_empty_E cfg true co h.1, hookFree_empty_SL cfg true b h.2]
  | funDecl n ps b =>
      simp only [hookFreeS] at h
      simp [hookS, hookFree_empty_SL cfg false b h]
  | malformed sp => rfl

theorem hookFree_empty_SL (cfg : Config) (c : Bool) (ss : List Stmt)
    (h : hookFreeSL cfg ss = true) : hookSL cfg c ss = [] := by
  cases ss with
  | nil => rfl
  | cons s rest =>
      simp only [hookFreeSL, Bool.and_eq_true] at h
      simp [hookSL, hookFree_empty_S cfg c s h.1, hookFree_empty_SL cfg c rest h.2]

theorem hookFree_empty_AL (cfg : Config) (c : Bool) (attrs : List MAttr)
    (h : hookFreeAL cfg attrs = true) : hookAL cfg c attrs = [] := by
  cases attrs with
  | nil => rfl
  | cons a rest =>
      cases a with
      | mk nm v sp =>
          cases v with
          | litStr s =>
              simp only [hookFreeAL] at h
              simp [hookAL, hookFree_empty_AL cfg c rest h]
          | embedded e =>
              simp only [hookFreeAL, Bool.and_eq_true] at h
              simp [hookAL, hookFree_empty_E cfg c e h.1, hookFree_empty_AL cfg c rest h.2]

theorem hookFree_empty_CL (cfg : Config) (c : Bool) (ch : List MChild)
    (h : hookFreeCL cfg ch = true) : hookCL cfg c ch = [] := by
  cases ch with
  | nil => rfl
  | cons x rest =>
      cases x with
      | sub m =>
          cases m with
          | node tag attrs ch2 sc sp =>
              simp only [hookFreeCL, Bool.and_eq_true] at h
              simp [hookCL, hookFree_empty_AL cfg c attrs h.1.1, hookFree_empty_CL cfg c ch2 h.1.2,
                hookFree_empty_CL cfg c rest h.2]
      | textRun s =>
          simp only [hookFreeCL] at h
          simp [hookCL, hookFree_empty_CL cfg c rest h]
      | embedded e =>
          simp only [hookFreeCL, Bool.and_eq_true] at h
          simp [hookCL, hookFree_empty_E cfg c e h.1, hookFree_empty_CL cfg c rest h.2]

end

theorem topCallOk_empty (cfg : Config) (e : Expr) (h : topCallOk cfg e = true) :
    hookE cfg false e = [] := by
  cases e with
  | call callee args sp =>
      simp only [topCallOk, Bool.or_eq_true, Bool.and_eq_true] at h
      rcases h with ⟨⟨hhook, hsimple⟩, hargs⟩ | hfree
      · have hcallee : hookE cfg false callee = [] := by
          cases callee with
          | var n => rfl
          | member o f => cases o <;> first | rfl | simp [simpleCallee] at hsimple
          | lit s => simp [simpleCallee] at hsimple
          | call c2 a2 s2 => simp [simpleCallee] at hsimple
          | arrow ps b => simp [simpleCallee] at hsimple
          | awaitE e2 s2 => simp [simpleCallee] at hsimple
          | markup m => simp [simpleCallee] at hsimple
          | placeholder t es s2 => simp [simpleCallee] at hsimple
          | comma es s2 => simp [simpleCallee] at hsimple
          | malformedE s2 => simp [simpleCallee] at hsimple
        simp [hookE, hcallee, hookFree_empty_EL cfg false args hargs]
      · exact hookFree_empty_E cfg false _ hfree
  | lit s => rfl
  | var n => rfl
  | member o f => exact hookFree_empty_E cfg false _ (by simpa [topCallOk] using h)
  | arrow ps b => exact hookFree_empty_E cfg false _ (by simpa [topCallOk] using h)
  | awaitE e2 s2 => exact hookFree_empty_E cfg false _ (by simpa [topCallOk] using h)
  | markup m => exact hookFree_empty_E cfg false _ (by simpa [topCallOk] using h)
  | placeholder t es s2 => exact hookFree_empty_E cfg false _ (by simpa [topCallOk] using h)
  | comma es s2 => exact hookFree_empty_E cfg false _ (by simpa [topCallOk] using h)
  | malformedE s2 => rfl

theorem hookTopOk_empty_S (cfg : Config) (s : Stmt) (h : hookTopOkS cfg s = true) :
    hookS cfg false s = [] := by
  cases s with
  | exprStmt e => exact topCallOk_empty cfg e (by simpa [hookTopOkS] using h)
  | varDecl n e => exact topCallOk_empty cfg e (by simpa [hookTopOkS] using h)
  | ret a =>
      cases a with
      | none => rfl
      | some e => exact topCallOk_empty cfg e (by simpa [hookTopOkS] using h)
  | ifS co th el => exact hookFree_empty_S cfg false _ (by simpa [hookTopOkS] using h)
  | tryS b cb fb => exact hookFree_empty_S cfg false _ (by simpa [hookTopOkS] using h)
  | loop co b => exact hookFree_empty_S cfg false _ (by simpa [hookTopOkS] using h)
  | funDecl n ps b => exact hookFree_empty_S cfg false _ (by simpa [hookTopOkS] using h)
  | malformed sp => rfl

theorem hookTopOk_empty_SL (cfg : Config) (body : List Stmt)
    (h : body.all (hookTopOkS cfg) = true) : hookSL cfg false body = [] := by
  induction body with
  | nil => rfl
  | cons s rest ih =>
      simp only [List.all_cons, Bool.and_eq_true] at h
      simp [hookSL, hookTopOk_empty_S cfg s h.1, ih h.2]

/-! ### Diagnostic-classification helpers -/

theorem diagKey_span {a b : Diag} (h : diagKey a = diagKey b) : a.span = b.span :=
  congrArg Prod.fst h

theorem diagKey_kind {a b : Diag} (h : diagKey a = diagKey b) : a.kind = b.kind :=
  congrArg (fun x => x.2.1) h

theorem isHookDiag_key {a b : Diag} (h : diagKey a = diagKey b) :
    isHookDiag a = isHookDiag b := by
  simp [isHookDiag, diagKey_kind h]

theorem isSLDiag_key {a b : Diag} (h : diagKey a = diagKey b) :
    isSLDiag a = isSLDiag b := by
  simp [isSLDiag, diagKey_kind h]

theorem isSinkDiagAt_key (sp : Span) {a b : Diag} (h : diagKey a = diagKey b) :
    isSinkDiagAt sp a = isSinkDiagAt sp b := by
  simp [isSinkDiagAt, diagKey_kind h, diagKey_span h]

theorem countP_map_false {α : Type} (f : α → Diag) (p : Diag → Bool) (l : List α)
    (h : ∀ x, p (f x) = false) : (l.map f).countP p = 0 := by
  rw [List.countP_map]
  exact List.countP_eq_zero.mpr (fun a _ => by simp [Function.comp, h a])

theorem isHookDiag_mkSinkDiag (h : SinkHit) : isHookDiag (mkSinkDiag h) = false := rfl

theorem isHookDiag_mkHookDiag (sp : Span) : isHookDiag (mkHookDiag sp) = true := rfl

theorem isHookDiag_toDiag (r : RecoveryDiag) : isHookDiag (RecoveryDiag.toDiag r) = false := rfl

theorem isSLDiag_mkSinkDiag (h : SinkHit) : isSLDiag (mkSinkDiag h) = false := rfl

theorem isSLDiag_mkHookDiag (sp : Span) : isSLDiag (mkHookDiag sp) = false := rfl

theorem isSLDiag_toDiag (r : RecoveryDiag) : isSLDiag (RecoveryDiag.toDiag r) = false := rfl

theorem isSLDiag_slDiag (p : Nat) : isSLDiag (structuralLimitDiag p) = true := rfl

theorem isSinkDiagAt_mkHookDiag (sp sp2 : Span) : isSinkDiagAt sp (mkHookDiag sp2) = false := rfl

theorem isSinkDiagAt_mkSinkDiag (sp : Span) (h : SinkHit) :
    isSinkDiagAt sp (mkSinkDiag h) = decide (h.span = sp) := by
  simp [isSinkDiagAt, mkSinkDiag]

theorem sink_countP_span (l : List SinkHit) (sp : Span)
    (hnd : (l.map SinkHit.span).Nodup) (a : SinkHit) (ha : a ∈ l) (hsp : a.span = sp) :
    l.countP (fun h => decide (h.span = sp)) = 1 := by
  induction l with
  | nil => exact absurd ha (List.not_mem_nil a)
  | cons b rest ih =>
      rw [List.map_cons, List.nodup_cons] at hnd
      rw [List.countP_cons]
      rcases List.mem_cons.mp ha with rfl | ha2
      · have hz : rest.countP (fun h => decide (h.span = sp)) = 0 := by
          refine List.countP_eq_zero.mpr (fun x hx hpx => ?_)
          simp only [decide_eq_true_eq] at hpx
          exact hnd.1 (hsp ▸ hpx ▸ List.mem_map_of_mem SinkHit.span hx)
        simp [hz, hsp]
      · have hb : decide (b.span = sp) = false := by
          simp only [decide_eq_false_iff_not]
          intro hbs
          exact hnd.1 (hbs ▸ hsp ▸ List.mem_map_of_mem SinkHit.span ha2)
        simp [hb, ih hnd.2 ha2]

theorem patternDiags_warning (cfg : Config) (ss : List Stmt) :
    ∀ d ∈ patternDiags cfg ss, d.severity = .warning := by
  intro d hd
  rcases List.mem_append.mp hd with hs | hh
  · obtain ⟨x, _, rfl⟩ := List.mem_map.mp hs
    rfl
  · obtain ⟨x, _, rfl⟩ := List.mem_map.mp hh
    rfl

/-! ### Claim theorems -/

/-- C1: for every input, the number of `return` statement nodes in the
pureJsView of the AnalysisResult produced by the analysis equals the number in
the reference full parse of the same input; more generally the projection
preserves the count of every statement-level control construct (return, if,
try/catch/finally, loops, function boundaries) at every nesting depth, and
substitution never changes the constructor of a statement — it only replaces
JSX-typed expression operands with OpaqueMarkup placeholders. -/
theorem claim1_projection_preserves_returns :
    (∀ cfg toks,
       cntSL .retT (analyzeCore cfg toks).pureJsView = cntSL .retT (parseTop cfg toks).val)
    ∧ (∀ t ss, cntSL t (projectSL ss) = cntSL t ss)
    ∧ (∀ s, stmtCtorName (projectS s) = stmtCtorName s) :=
  ⟨fun cfg toks => cnt_projSL .retT (parseTop cfg toks).val,
   fun t ss => cnt_projSL t ss, stmtCtorName_project⟩

/-- C2: `analyze` is total — for every configuration with a positive ceiling
and every input it returns an AnalysisResult (never an exception; only the
invalid-configuration precondition is reported to the caller), and on the
fixture with invalid JS inside a JSX embedded expression the result contains
at least one SyntaxRecovery diagnostic while analysis of the remainder of the
file completes (the component declaration and its return statement are still
in the view). -/
theorem claim2_never_raises :
    (∀ cfg toks, cfg.maxDepth ≠ 0 → ∃ r, analyze cfg toks = Except.ok r)
    ∧ 1 ≤ countDiags isSynDiag (analyzeCore defaultCfg invalidJsxFixture).diagnostics
    ∧ (stmtCtorName <$> (analyzeCore defaultCfg invalidJsxFixture).pureJsView) = ["varDecl"]
    ∧ cntSL .retT (analyzeCore defaultCfg invalidJsxFixture).pureJsView = 1 := by
  refine ⟨fun cfg toks h => ⟨analyzeCore cfg toks, ?_⟩, by decide, by decide, by decide⟩
  simp [analyze, h]

/-- Witness for C2 at a concrete configuration and input. -/
theorem claim2_witness : ∃ r, analyze defaultCfg invalidJsxFixture = Except.ok r :=
  claim2_never_raises.1 defaultCfg invalidJsxFixture (by decide)

/-- C3: for every program containing a markup attribute whose name is in the
configured dangerousSinkNames set bound to a non-literal expression, the
analysis returns exactly one PatternMatch diagnostic referencing that
attribute's span, with warning severity; and the partitioner tags any
dangerous-named attribute for the analyzer regardless of the value bound to
it.  Attribute spans are assumed pairwise distinct (§3 span invariant). -/
theorem claim3_dangerous_sink (cfg : Config) (ss : List Stmt) (a : SinkHit)
    (hnd : ((sinkSL cfg ss).map SinkHit.span).Nodup)
    (ha : a ∈ sinkSL cfg ss) (hlit : a.litVal = false) :
    countDiags (isSinkDiagAt a.span) (analyzeAst cfg ss).diagnostics = 1
    ∧ (∀ d ∈ (analyzeAst cfg ss).diagnostics, isSinkDiagAt a.span d = true → d.severity = .warning)
    ∧ (∀ (tag nm : String) (v : MAttrVal) (sp : Span) (rest : List MAttr),
        isDangerous cfg nm = true →
        (⟨tag, nm, sp, isLitVal v⟩ : SinkHit) ∈ sinkAL cfg tag (.mk nm v sp :: rest)) := by
  refine ⟨?_, ?_, ?_⟩
  · show (aggregate (patternDiags cfg ss)).countP (isSinkDiagAt a.span) = 1
    refine aggregate_countP_one _ _ (fun x y h => isSinkDiagAt_key a.span h) ?_
    rw [patternDiags, List.countP_append]
    have h1 : (sinkRule cfg ss).countP (isSinkDiagAt a.span)
        = (sinkSL cfg ss).countP (fun h => decide (h.span = a.span)) := by
      rw [sinkRule, List.countP_map]
      congr 1
    have h2 : (hookRule cfg (projectSL ss)).countP (isSinkDiagAt a.span) = 0 := by
      rw [hookRule]
      exact countP_map_false _ _ _ (fun sp2 => isSinkDiagAt_mkHookDiag a.span sp2)
    rw [h1, h2, sink_countP_span _ _ hnd a ha rfl]
  · intro d hd _
    exact patternDiags_warning cfg ss d (aggregate_subset _ d hd)
  · intro tag nm v sp rest h
    rw [sinkAL]
    simp [h]

/-- Witness for C3 at a concrete program containing one dangerous-sink
attribute bound to a non-literal expression. -/
theorem claim3_witness :
    countDiags (isSinkDiagAt (⟨1, 2⟩ : Span))
      (analyzeAst defaultCfg
        [.exprStmt (.markup (.node "div"
          [.mk "dangerouslySetInnerHTML" (.embedded (.var "username")) ⟨1, 2⟩] [] true ⟨0, 3⟩))]).diagnostics = 1 :=
  (claim3_dangerous_sink defaultCfg
    [.exprStmt (.markup (.node "div"
      [.mk "dangerouslySetInnerHTML" (.embedded (.var "username")) ⟨1, 2⟩] [] true ⟨0, 3⟩))]
    ⟨"div", "dangerouslySetInnerHTML", ⟨1, 2⟩, false⟩
    (by decide) (by decide) (by decide)).1

/-- C4: a hook-style call nested inside an `if` block within a function body
yields exactly one hook-usage PatternMatch diagnostic; the same call placed
unconditionally as a direct child of the function body's top level yields
zero hook-usage diagnostics. -/
theorem claim4_hook_in_conditional (cfg : Config) (f hname : String) (ps : List String)
    (cond : Expr) (args : List Expr) (spc : Span)
    (hh : isHookName cfg hname = true)
    (hc : hookFreeE cfg cond = true) (ha : hookFreeEL cfg args = true) :
    countDiags isHookDiag (analyzeAst cfg
      [.funDecl f ps [.ifS cond [.exprStmt (.call (.var hname) args spc)] []]]).diagnostics = 1
    ∧ countDiags isHookDiag (analyzeAst cfg
      [.funDecl f ps [.exprStmt (.call (.var hname) args spc)]]).diagnostics = 0 := by
  constructor
  · show (aggregate (patternDiags cfg
      [.funDecl f ps [.ifS cond [.exprStmt (.call (.var hname) args spc)] []]])).countP isHookDiag = 1
    refine aggregate_countP_one _ _ (fun x y h => isHookDiag_key h) ?_
    rw [patternDiags, List.countP_append]
    have hsink : (sinkRule cfg
        [Stmt.funDecl f ps [.ifS cond [.exprStmt (.call (.var hname) args spc)] []]]).countP isHookDiag = 0 := by
      rw [sinkRule]
      exact countP_map_false _ _ _ isHookDiag_mkSinkDiag
    have hview : hookSL cfg false (projectSL
        [Stmt.funDecl f ps [.ifS cond [.exprStmt (.call (.var hname) args spc)] []]]) = [spc] := by
      rw [hook_projSL]
      simp [hookSL, hookS, hookE, isHookCallee, calleeHookName, hh,
        hookFree_empty_E cfg true cond hc, hookFree_empty_EL cfg true args ha]
    rw [hsink, hookRule, hview]
    simp [List.countP_cons, isHookDiag_mkHookDiag]
  · show (aggregate (patternDiags cfg
      [.funDecl f ps [.exprStmt (.call (.var hname) args spc)]])).countP isHookDiag = 0
    refine aggregate_countP_zero _ _ ?_
    rw [patternDiags, List.countP_append]
    have hsink : (sinkRule cfg
        [Stmt.funDecl f ps [.exprStmt (.call (.var hname) args spc)]]).countP isHookDiag = 0 := by
      rw [sinkRule]
      exact countP_map_false _ _ _ isHookDiag_mkSinkDiag
    have hview : hookSL cfg false (projectSL
        [Stmt.funDecl f ps [.exprStmt (.call (.var hname) args spc)]]) = [] := by
      rw [hook_projSL]
      simp [hookSL, hookS, hookE, hookFree_empty_EL cfg false args ha]
    rw [hsink, hookRule, hview]
    simp

/-- Witness for C4 at a concrete configuration, hook name and arguments. -/
theorem claim4_witness :
    countDiags isHookDiag (analyzeAst defaultCfg
      [.funDecl "C" [] [.ifS (.var "x")
        [.exprStmt (.call (.var "useState") [.lit "0"] ⟨3, 4⟩)] []]]).diagnostics = 1 :=
  (claim4_hook_in_conditional defaultCfg "C" "useState" [] (.var "x") [.lit "0"] ⟨3, 4⟩
    (by decide) (by decide) (by decide)).1

/-- C5: the diagnostics the Pattern Analyzer derives from the pure-JS view of
the original mixed JSX/JS program are identical to the diagnostics obtained by
analyzing the same program with every JSX tag replaced by semantically neutral
whitespace (`neutralizeSL`, the specification-side transformation: markup and
its text runs vanish, embedded expressions remain as ordinary JS). -/
theorem claim5_markup_invisibility (cfg : Config) (ss : List Stmt) :
    aggregate (viewDiags cfg (projectSL ss)) = (analyzeAst cfg (neutralizeSL ss)).diagnostics := by
  show aggregate _ = aggregate (patternDiags cfg (neutralizeSL ss))
  congr 1
  rw [viewDiags, patternDiags, sinkRule, sink_neutSL]
  simp [hookRule, hook_projSL, hook_neutSL]

/-- C6: in every AnalysisResult, the diagnostics sequence contains no two
identical (span, rule, message) tuples and is sorted by start offset
ascending, then severity descending — for every configuration and input. -/
theorem claim6_diagnostics_ordered (cfg : Config) (toks : List Tok) :
    ((analyzeCore cfg toks).diagnostics).Pairwise (fun a b => diagLe a b = true)
    ∧ ((analyzeCore cfg toks).diagnostics).Pairwise (fun a b => diagKey a ≠ diagKey b) :=
  ⟨aggregate_sorted _, aggregate_pairwise_key _⟩

/-- C7: a JSX close tag that does not match the innermost open tag makes the
partitioner emit one SyntaxRecovery diagnostic and return with the close token
unconsumed (so the enclosing context continues analysing the rest of the
file), the dangling open tag is marked implicitly self-closed, and on a
concrete mismatched-close input the analysis still produces the rest of the
file's statements. -/
theorem claim7_mismatched_close :
    (∀ cfg n0 fuel tag openPos t rest, t ≠ tag →
       parseChildren cfg n0 (fuel + 1) tag openPos (Tok.tagClose t :: rest) =
         ⟨([], false),
           [⟨"mismatched closing tag " ++ t, spanAt (posOf n0 (Tok.tagClose t :: rest))⟩],
           Tok.tagClose t :: rest, false⟩)
    ∧ (∀ cfg n0 fuel tag openPos toks,
         (parseAttrs cfg n0 fuel toks).val.2 = false →
         (parseChildren cfg n0 fuel tag openPos (parseAttrs cfg n0 fuel toks).rest).val.2 = false →
         (parseMarkup cfg n0 (fuel + 1) tag openPos toks).val.selfClosing = true)
    ∧ countDiags isSynDiag (analyzeCore defaultCfg mismatchFixture).diagnostics = 1
    ∧ (stmtCtorName <$> (analyzeCore defaultCfg mismatchFixture).pureJsView) = ["exprStmt", "varDecl"] := by
  refine ⟨fun cfg n0 fuel tag openPos t rest h => ?_, fun cfg n0 fuel tag openPos toks h1 h2 => ?_,
    by decide, by decide⟩
  · have e1 : parseChildren cfg n0 (fuel + 1) tag openPos (Tok.tagClose t :: rest) =
        (if t = tag then ⟨([], true), [], rest, false⟩
         else ⟨([], false),
          [⟨"mismatched closing tag " ++ t, spanAt (posOf n0 (Tok.tagClose t :: rest))⟩],
          Tok.tagClose t :: rest, false⟩) := rfl
    rw [e1, if_neg h]
  · have e1 : parseMarkup cfg n0 (fuel + 1) tag openPos toks =
        (if (parseAttrs cfg n0 fuel toks).val.2 then
          ⟨Markup.node tag (parseAttrs cfg n0 fuel toks).val.1 [] true
              ⟨openPos, posOf n0 (parseAttrs cfg n0 fuel toks).rest⟩,
            (parseAttrs cfg n0 fuel toks).diags, (parseAttrs cfg n0 fuel toks).rest,
            (parseAttrs cfg n0 fuel toks).limit⟩
        else
          ⟨Markup.node tag (parseAttrs cfg n0 fuel toks).val.1
              (parseChildren cfg n0 fuel tag openPos (parseAttrs cfg n0 fuel toks).rest).val.1
              (!(parseChildren cfg n0 fuel tag openPos (parseAttrs cfg n0 fuel toks).rest).val.2)
              ⟨openPos, posOf n0 (parseChildren cfg n0 fuel tag openPos (parseAttrs cfg n0 fuel toks).rest).rest⟩,
            (parseAttrs cfg n0 fuel toks).diags
              ++ (parseChildren cfg n0 fuel tag openPos (parseAttrs cfg n0 fuel toks).rest).diags,
            (parseChildren cfg n0 fuel tag openPos (parseAttrs cfg n0 fuel toks).rest).rest,
            (parseAttrs cfg n0 fuel toks).limit
              || (parseChildren cfg n0 fuel tag openPos (parseAttrs cfg n0 fuel toks).rest).limit⟩) := rfl
    rw [e1, if_neg (by simp [h1])]
    simp [Markup.selfClosing, h2]

/-- Witness for C7 at a concrete mismatched close tag. -/
theorem claim7_witness :
    parseChildren defaultCfg 10 6 "b" 2 [Tok.tagClose "a"] =
      ⟨([], false), [⟨"mismatched closing tag " ++ "a", spanAt (posOf 10 [Tok.tagClose "a"])⟩],
        [Tok.tagClose "a"], false⟩ :=
  claim7_mismatched_close.1 defaultCfg 10 5 "b" 2 "a" [] (by decide)

/-- C8: when the input exceeds the configured depth/size ceiling (the parse
sets the limit flag), the analysis stops for that file only and returns a
partial AnalysisResult whose diagnostics contain exactly one StructuralLimit
diagnostic, with error (fatal) severity, together with every diagnostic
collected before the limit (up to key identity under deduplication), and with
the pureJsView populated from the partial parse up to truncation; when the
ceiling is not exceeded there is no StructuralLimit diagnostic. -/
theorem claim8_structural_limit (cfg : Config) (toks : List Tok) :
    ((parseTop cfg toks).limit = true →
       countDiags isSLDiag (analyzeCore cfg toks).diagnostics = 1
       ∧ (∀ d ∈ (analyzeCore cfg toks).diagnostics, isSLDiag d = true → d.severity = .error)
       ∧ (∀ r ∈ (parseTop cfg toks).diags,
            ∃ e ∈ (analyzeCore cfg toks).diagnostics, diagKey e = diagKey (RecoveryDiag.toDiag r)))
    ∧ ((parseTop cfg toks).limit = false →
       countDiags isSLDiag (analyzeCore cfg toks).diagnostics = 0)
    ∧ (analyzeCore cfg toks).pureJsView = projectSL (parseTop cfg toks).val := by
  have hpat : (patternDiags cfg (parseTop cfg toks).val).countP isSLDiag = 0 := by
    rw [patternDiags, List.countP_append, sinkRule, hookRule,
      countP_map_false _ _ _ isSLDiag_mkSinkDiag, countP_map_false _ _ _ isSLDiag_mkHookDiag]
  have hsyn : ((parseTop cfg toks).diags.map RecoveryDiag.toDiag).countP isSLDiag = 0 :=
    countP_map_false _ _ _ isSLDiag_toDiag
  refine ⟨fun hl => ?_, fun hl => ?_, rfl⟩
  · have hcore : (analyzeCore cfg toks).diagnostics
        = aggregate ((parseTop cfg toks).diags.map RecoveryDiag.toDiag
            ++ patternDiags cfg (parseTop cfg toks).val
            ++ [structuralLimitDiag (posOf toks.length (parseTop cfg toks).rest)]) := by
      simp [analyzeCore, hl]
    refine ⟨?_, ?_, ?_⟩
    · rw [countDiags, hcore]
      refine aggregate_countP_one _ _ (fun x y h => isSLDiag_key h) ?_
      rw [List.countP_append, List.countP_append, hsyn, hpat]
      simp [List.countP_cons, isSLDiag_slDiag]
    · intro d hd hsl
      rw [hcore] at hd
      have hdL := aggregate_subset _ d hd
      rcases List.mem_append.mp hdL with hd1 | hd2
      · rcases List.mem_append.mp hd1 with hsyn2 | hpat2
        · obtain ⟨r, _, rfl⟩ := List.mem_map.mp hsyn2
          simp [isSLDiag, RecoveryDiag.toDiag] at hsl
        · rw [patternDiags] at hpat2
          rcases List.mem_append.mp hpat2 with hs | hh2
          · rw [sinkRule] at hs
            obtain ⟨x, _, rfl⟩ := List.mem_map.mp hs
            simp [isSLDiag, mkSinkDiag] at hsl
          · rw [hookRule] at hh2
            obtain ⟨x, _, rfl⟩ := List.mem_map.mp hh2
            simp [isSLDiag, mkHookDiag] at hsl
      · rw [List.mem_singleton] at hd2
        subst hd2
        rfl
    · intro r hr
      rw [hcore]
      exact aggregate_mem_key _ _
        (List.mem_append_left _ (List.mem_append_left _ (List.mem_map_of_mem _ hr)))
  · have hcore : (analyzeCore cfg toks).diagnostics
        = aggregate ((parseTop cfg toks).diags.map RecoveryDiag.toDiag
            ++ patternDiags cfg (parseTop cfg toks).val ++ []) := by
      simp [analyzeCore, hl]
    rw [countDiags, hcore]
    refine aggregate_countP_zero _ _ ?_
    rw [List.countP_append, List.countP_append, hsyn, hpat]
    rfl

/-- Witness for C8 at a concrete input exceeding a tiny ceiling. -/
theorem claim8_witness :
    countDiags isSLDiag (analyzeCore tinyCfg overflowFixture).diagnostics = 1 :=
  ((claim8_structural_limit tinyCfg overflowFixture).1 (by decide)).1

/-- C9: hook-style calls written as member expressions (React.useState) are
recognised by the hook-usage analysis exactly like bare prefixed calls
(useState); and a function whose hook-style calls — bare or member-qualified —
all occur unconditionally at the body's top level receives zero hook-usage
diagnostics. -/
theorem claim9_member_hooks :
    (∀ (cfg : Config) (o fld : String), isHookCallee cfg (.member (.var o) fld) = isHookName cfg fld)
    ∧ (∀ (cfg : Config) (n : String), isHookCallee cfg (.var n) = isHookName cfg n)
    ∧ (∀ (cfg : Config) (fname : String) (ps : List String) (body : List Stmt),
        body.all (hookTopOkS cfg) = true →
        countDiags isHookDiag (analyzeAst cfg [.funDecl fname ps body]).diagnostics = 0) := by
  refine ⟨fun cfg o fld => rfl, fun cfg n => rfl, fun cfg fname ps body h => ?_⟩
  show (aggregate (patternDiags cfg [.funDecl fname ps body])).countP isHookDiag = 0
  refine aggregate_countP_zero _ _ ?_
  rw [patternDiags, List.countP_append]
  have hsink : (sinkRule cfg [Stmt.funDecl fname ps body]).countP isHookDiag = 0 := by
    rw [sinkRule]
    exact countP_map_false _ _ _ isHookDiag_mkSinkDiag
  have hview : hookSL cfg false (projectSL [Stmt.funDecl fname ps body]) = [] := by
    rw [hook_projSL]
    simp [hookSL, hookS, hookTopOk_empty_SL cfg body h]
  rw [hsink, hookRule, hview]
  rfl

/-- Witness for C9: a component using member-qualified hooks unconditionally
at top level gets zero hook-usage diagnostics. -/
theorem claim9_witness :
    countDiags isHookDiag (analyzeAst defaultCfg
      [.funDecl "UserProfile" []
        [.varDecl "s" (.call (.member (.var "React") "useState") [.lit "0"] ⟨1, 2⟩)]]).diagnostics = 0 :=
  claim9_member_hooks.2.2 defaultCfg "UserProfile" []
    [.varDecl "s" (.call (.member (.var "React") "useState") [.lit "0"] ⟨1, 2⟩)] (by decide)

/-- C10: on the App fixture, the brace pair holding only a comment is not
treated as a malformed embedded expression: there is exactly one
SyntaxRecovery diagnostic, it sits at token position 12 (inside the
statement-in-expression-position braces, tokens 11–21), no diagnostic refers
to the comment-only braces (tokens 22–24) or beyond, and the comment-only
braces contribute no embedded expression to the pure-JS view (the view's
placeholder carries exactly one embedded expression, from the malformed
statement braces). -/
theorem claim10_comment_braces :
    countDiags isSynDiag (analyzeCore defaultCfg invalidJsxFixture).diagnostics = 1
    ∧ ((analyzeCore defaultCfg invalidJsxFixture).diagnostics.filter isSynDiag).map
        (fun d => d.span.start) = [12]
    ∧ ((analyzeCore defaultCfg invalidJsxFixture).diagnostics.all
        (fun d => decide (d.span.start < 22))) = true
    ∧ embSL (analyzeCore defaultCfg invalidJsxFixture).pureJsView = 1 :=
  ⟨by decide, by decide, by decide, by decide⟩

end JsxSpec
